import Mathlib

/-!
Verification development for the Z.ai chat-provider VS Code extension
(`zai-provider-extension`).

The definitions below are a shallow embedding, translated from the
TypeScript source of the repository:

* `src/utils.ts` (message normalization, request validation, token
  estimation, JSON parsing helper),
* the provider class (`ZaiChatModelProvider`): request pre-network
  pipeline, SSE delta dispatching, the inline tool-call text parser,
  tool-call buffering/flushing and the reasoning formatter.

Modelling conventions:

* JavaScript strings are modelled as Lean `String` / `List Char`
  (sequences of scalar values; all inputs evaluated here are ASCII,
  for which JS UTF-16 code-unit length and scalar count agree).
* `JSON.parse` / `JSON.stringify` are modelled by an executable
  recursive-descent parser / serializer over a `Json` inductive whose
  numeric literals are restricted to integers (every numeral appearing
  in this development is an integer; fractional/exponent literals are
  treated as parse failures).
* `Math.random()`-based fresh identifiers (`call_xxxxxxxx`,
  `tct_xxxxxxxx`, `jtc_xxxxxxxx`) are modelled by a deterministic
  per-session counter producing the non-empty identifiers
  `call_0`, `tct_1`, ...; the code only relies on these ids being fresh
  and non-empty.
* `Promise`/`async` plumbing is elided: every modelled routine is a
  pure function of the provider state; a thrown exception is an
  `Except.error`.
-/

set_option autoImplicit false

namespace Zai

/-! ## JavaScript-style list/string primitives -/

/-- `startsL pat s` : does `s` start with `pat`?  (JS `String.startsWith`,
used to model `indexOf`/`endsWith` on strings as operations on char lists). -/
def startsL : List Char → List Char → Bool
  | [], _ => true
  | _ :: _, [] => false
  | a :: as, b :: bs => a == b && startsL as bs

/-- `endsL pat s` : does `s` end with `pat`? (JS `String.endsWith`). -/
def endsL (pat s : List Char) : Bool :=
  startsL pat.reverse s.reverse

/-- `findSub? pat s` : index of the first occurrence of `pat` in `s`
(JS `String.indexOf`, with `none` standing for `-1`). -/
def findSub? (pat : List Char) : List Char → Option Nat
  | [] => if pat.isEmpty then some 0 else none
  | s@(_ :: t) => if startsL pat s then some 0 else (findSub? pat t).map (· + 1)

/-- Whitespace recognized by JS `String.trim` (ASCII part). -/
def isJsSpace (c : Char) : Bool :=
  c == ' ' || c == '\t' || c == '\n' || c == '\r' || c == '\x0b' || c == '\x0c'

/-- JS `String.trim` on char lists. -/
def jsTrim (l : List Char) : List Char :=
  ((l.dropWhile isJsSpace).reverse.dropWhile isJsSpace).reverse

/-- JS `String.trim`. -/
def jsTrimS (s : String) : String :=
  (jsTrim s.data).asString

/-- JS `str.split(/\r?\n/)`: split on `\n`, treating a preceding `\r` as part
of the separator. -/
def splitLinesJS : List Char → List (List Char)
  | [] => [[]]
  | c :: rest =>
    if c = '\n' then [] :: splitLinesJS rest
    else if c = '\r' then
      match rest with
      | '\n' :: rest' => [] :: splitLinesJS rest'
      | other =>
        match splitLinesJS other with
        | [] => [[c]]
        | l :: ls => (c :: l) :: ls
    else
      match splitLinesJS rest with
      | [] => [[c]]
      | l :: ls => (c :: l) :: ls

/-! ## JSON values, parser (`JSON.parse`) and serializer (`JSON.stringify`) -/

/-- JSON values.  Numeric literals restricted to integers (see module
docstring). -/
inductive Json where
  | null : Json
  | bool : Bool → Json
  | num : Int → Json
  | str : String → Json
  | arr : List Json → Json
  | obj : List (String × Json) → Json
deriving Inhabited

mutual

/-- Structural equality test for `Json` (used to derive decidable equality). -/
def jsonBeq : Json → Json → Bool
  | .null, .null => true
  | .bool x, .bool y => x == y
  | .num x, .num y => x == y
  | .str x, .str y => x == y
  | .arr xs, .arr ys => jsonListBeq xs ys
  | .obj fs, .obj gs => jsonFieldsBeq fs gs
  | _, _ => false

/-- Elementwise equality of JSON arrays. -/
def jsonListBeq : List Json → List Json → Bool
  | [], [] => true
  | x :: xs, y :: ys => jsonBeq x y && jsonListBeq xs ys
  | _, _ => false

/-- Elementwise equality of JSON object fields. -/
def jsonFieldsBeq : List (String × Json) → List (String × Json) → Bool
  | [], [] => true
  | (k, v) :: fs, (k', v') :: gs => k == k' && jsonBeq v v' && jsonFieldsBeq fs gs
  | _, _ => false

end

instance : DecidableEq Json := fun a b =>
  decidable_of_iff (jsonBeq a b = true) (by
    have key : ∀ fuel (a b : Json), sizeOf a ≤ fuel → (jsonBeq a b = true ↔ a = b) := by
      intro fuel
      induction fuel with
      | zero =>
        intro a b ha
        exact absurd ha (by cases a <;> simp)
      | succ fuel ih =>
        intro a b ha
        cases a <;> cases b <;> try (simp [jsonBeq]; done)
        case arr.arr xs ys =>
          have hxs : sizeOf xs ≤ fuel := by
            simp only [Json.arr.sizeOf_spec] at ha; omega
          clear ha
          simp only [jsonBeq, Json.arr.injEq]
          induction xs generalizing ys with
          | nil => cases ys <;> simp [jsonListBeq]
          | cons x xt ihx =>
            cases ys with
            | nil => simp [jsonListBeq]
            | cons y yt =>
              have hx : sizeOf x ≤ fuel := by
                simp only [List.cons.sizeOf_spec] at hxs; omega
              have hxt : sizeOf xt ≤ fuel := by
                simp only [List.cons.sizeOf_spec] at hxs; omega
              simp only [jsonListBeq, Bool.and_eq_true, ih x y hx, ihx yt hxt,
                List.cons.injEq]
        case obj.obj fs gs =>
          have hfs : sizeOf fs ≤ fuel := by
            simp only [Json.obj.sizeOf_spec] at ha; omega
          clear ha
          simp only [jsonBeq, Json.obj.injEq]
          induction fs generalizing gs with
          | nil => cases gs <;> simp [jsonFieldsBeq]
          | cons f ft ihf =>
            cases gs with
            | nil => simp [jsonFieldsBeq]
            | cons g gt =>
              obtain ⟨fk, fv⟩ := f
              obtain ⟨gk, gv⟩ := g
              have hfv : sizeOf fv ≤ fuel := by
                simp only [List.cons.sizeOf_spec, Prod.mk.sizeOf_spec] at hfs; omega
              have hft : sizeOf ft ≤ fuel := by
                simp only [List.cons.sizeOf_spec] at hfs; omega
              simp only [jsonFieldsBeq, Bool.and_eq_true, beq_iff_eq, ih fv gv hfv,
                ihf gt hft, List.cons.injEq, Prod.mk.injEq, and_assoc]
    exact key (sizeOf a) a b le_rfl)

/-- JSON whitespace accepted by `JSON.parse` between tokens. -/
def isJsonWs (c : Char) : Bool :=
  c == ' ' || c == '\t' || c == '\n' || c == '\r'

/-- Skip JSON whitespace. -/
def skipWs (l : List Char) : List Char :=
  l.dropWhile isJsonWs

/-- Hex digit value. -/
def hexVal? (c : Char) : Option Nat :=
  if '0' ≤ c ∧ c ≤ '9' then some (c.toNat - '0'.toNat)
  else if 'a' ≤ c ∧ c ≤ 'f' then some (c.toNat - 'a'.toNat + 10)
  else if 'A' ≤ c ∧ c ≤ 'F' then some (c.toNat - 'A'.toNat + 10)
  else none

/-- Parse the body of a JSON string literal (after the opening quote),
returning the decoded chars and the remainder after the closing quote. -/
def parseStringBody (fuel : Nat) (l : List Char) : Option (List Char × List Char) :=
  match fuel, l with
  | 0, _ => none
  | _, [] => none
  | fuel + 1, c :: rest =>
    if c = '"' then some ([], rest)
    else if c = '\\' then
      match rest with
      | [] => none
      | e :: rest' =>
        let dec : Option (Char × List Char) :=
          if e = '"' then some ('"', rest')
          else if e = '\\' then some ('\\', rest')
          else if e = '/' then some ('/', rest')
          else if e = 'b' then some ('\x08', rest')
          else if e = 'f' then some ('\x0c', rest')
          else if e = 'n' then some ('\n', rest')
          else if e = 'r' then some ('\r', rest')
          else if e = 't' then some ('\t', rest')
          else if e = 'u' then
            match rest' with
            | h1 :: h2 :: h3 :: h4 :: rest'' =>
              match hexVal? h1, hexVal? h2, hexVal? h3, hexVal? h4 with
              | some a, some b, some c', some d =>
                let n := ((a * 16 + b) * 16 + c') * 16 + d
                if n.isValidChar then some (Char.ofNat n, rest'') else none
              | _, _, _, _ => none
            | _ => none
          else none
        match dec with
        | none => none
        | some (ch, rest'') =>
          match parseStringBody fuel rest'' with
          | some (cs, rem) => some (ch :: cs, rem)
          | none => none
    else if c.toNat < 0x20 then none
    else
      match parseStringBody fuel rest with
      | some (cs, rem) => some (c :: cs, rem)
      | none => none

/-- Digits-to-`Nat`. -/
def digitsToNat (ds : List Char) : Nat :=
  ds.foldl (fun acc c => acc * 10 + (c.toNat - '0'.toNat)) 0

/-- Parse a JSON integer numeral (no fraction/exponent; leading-zero rules
of JSON). -/
def parseIntLit (l : List Char) : Option (Int × List Char) :=
  let (neg, l') := match l with
    | '-' :: t => (true, t)
    | _ => (false, l)
  let ds := l'.takeWhile Char.isDigit
  let rest := l'.dropWhile Char.isDigit
  if ds = [] then none
  else if ds.length > 1 ∧ ds.head? = some '0' then none
  else
    match rest with
    | '.' :: _ => none
    | 'e' :: _ => none
    | 'E' :: _ => none
    | _ =>
      let n : Int := Int.ofNat (digitsToNat ds)
      some (if neg then -n else n, rest)

/-- In a JS object literal the later of two identical keys wins, keeping the
first occurrence's position. -/
def objInsert (fs : List (String × Json)) (k : String) (v : Json) : List (String × Json) :=
  if fs.any (fun p => p.1 = k) then
    fs.map (fun p => if p.1 = k then (k, v) else p)
  else
    fs ++ [(k, v)]

mutual

/-- Recursive-descent JSON value parser (models `JSON.parse`). -/
def parseValue (fuel : Nat) (l : List Char) : Option (Json × List Char) :=
  match fuel with
  | 0 => none
  | fuel + 1 =>
    let l := skipWs l
    match l with
    | [] => none
    | c :: rest =>
      if c = 'n' then
        if startsL "null".data l then some (.null, l.drop 4) else none
      else if c = 't' then
        if startsL "true".data l then some (.bool true, l.drop 4) else none
      else if c = 'f' then
        if startsL "false".data l then some (.bool false, l.drop 5) else none
      else if c = '"' then
        match parseStringBody rest.length rest with
        | some (cs, rem) => some (.str cs.asString, rem)
        | none => none
      else if c = '\x7b' then
        let rest' := skipWs rest
        match rest' with
        | '\x7d' :: rem => some (.obj [], rem)
        | _ =>
          match parseMembers fuel rest' [] with
          | some (fs, rem) => some (.obj fs, rem)
          | none => none
      else if c = '[' then
        let rest' := skipWs rest
        match rest' with
        | ']' :: rem => some (.arr [], rem)
        | _ =>
          match parseElems fuel rest' with
          | some (xs, rem) => some (.arr xs, rem)
          | none => none
      else
        match parseIntLit l with
        | some (n, rem) => some (.num n, rem)
        | none => none

/-- Object members: `"key" : value (, "key" : value)* \x7d`. -/
def parseMembers (fuel : Nat) (l : List Char) (acc : List (String × Json)) :
    Option (List (String × Json) × List Char) :=
  match fuel with
  | 0 => none
  | fuel + 1 =>
    match skipWs l with
    | '"' :: rest =>
      match parseStringBody rest.length rest with
      | none => none
      | some (key, rem) =>
        match skipWs rem with
        | ':' :: rem' =>
          match parseValue fuel rem' with
          | none => none
          | some (v, rem'') =>
            let acc' := objInsert acc key.asString v
            match skipWs rem'' with
            | ',' :: rem''' => parseMembers fuel rem''' acc'
            | '\x7d' :: rem''' => some (acc', rem''')
            | _ => none
        | _ => none
    | _ => none

/-- Array elements: `value (, value)* ]`. -/
def parseElems (fuel : Nat) (l : List Char) : Option (List Json × List Char) :=
  match fuel with
  | 0 => none
  | fuel + 1 =>
    match parseValue fuel l with
    | none => none
    | some (v, rem) =>
      match skipWs rem with
      | ',' :: rem' =>
        match parseElems fuel rem' with
        | some (xs, rem'') => some (v :: xs, rem'')
        | none => none
      | ']' :: rem' => some ([v], rem')
      | _ => none

end

/-- `JSON.parse` on a whole string: one value, optionally surrounded by
whitespace; anything trailing is a syntax error. -/
def jsonParse (s : String) : Option Json :=
  match parseValue (s.data.length + 1) s.data with
  | some (v, rest) => if skipWs rest = [] then some v else none
  | none => none

/-- Escape one char per `JSON.stringify` string quoting. -/
def jsonEscapeChar (c : Char) : List Char :=
  if c = '"' then ['\\', '"']
  else if c = '\\' then ['\\', '\\']
  else if c = '\x08' then ['\\', 'b']
  else if c = '\t' then ['\\', 't']
  else if c = '\n' then ['\\', 'n']
  else if c = '\x0c' then ['\\', 'f']
  else if c = '\r' then ['\\', 'r']
  else if c.toNat < 0x20 then
    let hx := fun (n : Nat) => "0123456789abcdef".data.getD n '0'
    ['\\', 'u', '0', '0', hx (c.toNat / 16), hx (c.toNat % 16)]
  else [c]

/-- `JSON.stringify` of a string value. -/
def jsonQuote (s : String) : String :=
  ('"' :: (s.data.flatMap jsonEscapeChar) ++ ['"']).asString

mutual

/-- `JSON.stringify(v)` (no spacing, object keys in insertion order). -/
def jsonStringify : Json → String
  | .null => "null"
  | .bool true => "true"
  | .bool false => "false"
  | .num n => toString n
  | .str s => jsonQuote s
  | .arr xs => "[" ++ String.intercalate "," (jsonStringifyList xs) ++ "]"
  | .obj fs => "\x7b" ++ String.intercalate "," (jsonStringifyFields fs) ++ "\x7d"

/-- Serialize array elements. -/
def jsonStringifyList : List Json → List String
  | [] => []
  | v :: vs => jsonStringify v :: jsonStringifyList vs

/-- Serialize object members. -/
def jsonStringifyFields : List (String × Json) → List String
  | [] => []
  | (k, v) :: fs => (jsonQuote k ++ ":" ++ jsonStringify v) :: jsonStringifyFields fs

end

/-- `src/utils.ts` `tryParseJSONObject`: empty/whitespace-only input is an
error; otherwise `JSON.parse`, with failures reported as `none`. -/
def tryParseJSONObject (text : String) : Option Json :=
  if jsTrim text.data = [] then none
  else jsonParse text

/-- JS truthiness of a JSON value. -/
def jsTruthy : Json → Bool
  | .null => false
  | .bool b => b
  | .num n => n ≠ 0
  | .str s => s ≠ ""
  | .arr _ => true
  | .obj _ => true

/-- JS member access `v.key` for decoded JSON values: `undefined` (`none`)
unless `v` is an object with that key. -/
def jsGet (v : Json) (key : String) : Option Json :=
  match v with
  | .obj fs => (fs.find? (fun p => p.1 = key)).map (·.2)
  | _ => none

/-! ## Host message representation (`vscode.LanguageModelChatMessage` parts)

The content-part universe covers the canonical vscode part classes
(`LanguageModelTextPart`, `LanguageModelDataPart`,
`LanguageModelToolCallPart`, `LanguageModelToolResultPart`); image bytes are
byte lists. -/

/-- A content part of a host chat message. -/
inductive InputPart where
  | text (value : String)
  | data (mimeType : String) (dataBytes : List Nat)
  | toolCall (callId name : String) (input : Json)
  | toolResult (callId : String) (content : List InputPart)

/-- Host message roles (`LanguageModelChatMessageRole`); any role other than
`User`/`Assistant` is mapped to the wire role `"system"`. -/
inductive ChatRole where
  | user
  | assistant
  | other
deriving DecidableEq

/-- A host chat message. -/
structure ChatMessage where
  role : ChatRole
  content : List InputPart

mutual

/-- The `Json` value that `JSON.stringify` sees for a part class instance
(enumerable own properties in declaration order; `Uint8Array`s serialize to
objects with numeric-string keys). -/
def partToJson : InputPart → Json
  | .text v => .obj [("value", .str v)]
  | .data m bs => .obj [("mimeType", .str m),
      ("data", .obj (bs.enum.map (fun p => (toString p.1, Json.num (Int.ofNat p.2)))))]
  | .toolCall cid n inp => .obj [("callId", .str cid), ("name", .str n), ("input", inp)]
  | .toolResult cid content => .obj [("callId", .str cid), ("content", .arr (partsToJson content))]

/-- `partToJson` over a list of parts. -/
def partsToJson : List InputPart → List Json
  | [] => []
  | p :: ps => partToJson p :: partsToJson ps

end

/-- `src/utils.ts` `getTextPartValue`: the string `value` property of a text
part; the other part classes carry no string `value`. -/
def getTextPartValue : InputPart → Option String
  | .text v => some v
  | _ => none

/-- `src/utils.ts` `extractImageData`: image bytes and mime type from a
`LanguageModelDataPart` whose mime type is `image/*` and whose payload is
non-empty; other part classes yield nothing. -/
def extractImageData : InputPart → Option (String × List Nat)
  | .data m bs => if startsL "image/".data m.data && bs.length > 0 then some (m, bs) else none
  | _ => none

/-- Result of `getToolCallInfo`. -/
structure ToolCallInfo where
  id : Option String
  name : Option String
  args : Option Json

/-- `src/utils.ts` `getToolCallInfo`: a `ToolCallPart` yields its
`(callId, name, input)`; any other object part with a truthy `callId`
(i.e. a `ToolResultPart` with a non-empty call id) is also picked up, with
no name and no arguments. -/
def getToolCallInfo : InputPart → Option ToolCallInfo
  | .toolCall cid n inp => some ⟨some cid, some n, some inp⟩
  | .toolResult cid _ => if cid ≠ "" then some ⟨some cid, none, none⟩ else none
  | _ => none

/-- `src/utils.ts` `getToolResultTexts`: a `ToolResultPart` yields one text
per inner part (its string `value` if present, otherwise the JSON
serialization that `valueOf()`/`JSON.stringify` produce); any other object
part yields its string `value` or its own JSON serialization. -/
def getToolResultTexts : InputPart → List String
  | .toolResult _ content => content.map fun inner =>
      match getTextPartValue inner with
      | some tv => tv
      | none => jsonStringify (partToJson inner)
  | .text v => [v]
  | p => [jsonStringify (partToJson p)]

/-- `src/utils.ts` `getFirstToolResultCallId`: first part carrying a
`callId` (a `ToolResultPart`, or any other object part with a string
`callId`, which includes `ToolCallPart`s). -/
def getFirstToolResultCallId : List InputPart → Option String
  | [] => none
  | .toolResult cid _ :: _ => some cid
  | .toolCall cid _ _ :: _ => some cid
  | _ :: rest => getFirstToolResultCallId rest

/-! ## Base64 (Node `Buffer.toString("base64")`) -/

/-- Base64 alphabet. -/
def base64Alphabet : List Char :=
  "ABCDEFGHIJKLMNOPQRSTUVWXYZabcdefghijklmnopqrstuvwxyz0123456789+/".data

/-- One base64 digit. -/
def b64Char (n : Nat) : Char :=
  base64Alphabet.getD n 'A'

/-- Standard base64 encoding of a byte list, with padding. -/
def base64Encode : List Nat → List Char
  | [] => []
  | [b1] =>
    [b64Char (b1 % 256 / 4), b64Char (b1 % 4 * 16), '=', '=']
  | [b1, b2] =>
    [b64Char (b1 % 256 / 4), b64Char (b1 % 4 * 16 + b2 % 256 / 16), b64Char (b2 % 16 * 4), '=']
  | b1 :: b2 :: b3 :: rest =>
    b64Char (b1 % 256 / 4) :: b64Char (b1 % 4 * 16 + b2 % 256 / 16) ::
      b64Char (b2 % 16 * 4 + b3 % 256 / 64) :: b64Char (b3 % 64) :: base64Encode rest

/-! ## Wire message format (`ZaiChatMessage`) and `convertMessages` -/

/-- A wire content part (`ZaiContentPart`). -/
inductive ZaiContentPart where
  | text (text : String)
  | imageUrl (url : String)

/-- Wire message content: a bare string or a multipart array. -/
inductive ZaiContent where
  | str (s : String)
  | parts (ps : List ZaiContentPart)

/-- A wire tool call (`ZaiToolCall`, always `type: "function"`). -/
structure ZaiToolCall where
  id : String
  name : String
  arguments : String

/-- A wire chat message (`ZaiChatMessage`); an empty `tool_calls` list
models the absent property. -/
structure ZaiChatMessage where
  role : String
  content : ZaiContent
  tool_calls : List ZaiToolCall
  tool_call_id : Option String

/-- `tc.args ?? {}` (JS `??` replaces both `undefined` and `null`). -/
def argsOrEmptyObj : Option Json → Json
  | none => .obj []
  | some .null => .obj []
  | some v => v

/-- Convert one host message (`convertMessages` loop body); `ctr` is the
fresh-id counter modelling the random `call_` id suffixes. -/
def convertOneMessage (ctr : Nat) (msg : ChatMessage) : ZaiChatMessage × Nat :=
  let roleStr := match msg.role with
    | .user => "user"
    | .assistant => "assistant"
    | .other => "system"
  let textParts := msg.content.filterMap getTextPartValue
  let textJoin := String.join textParts
  let imageParts := msg.content.filterMap fun p =>
    (extractImageData p).map fun im =>
      ZaiContentPart.imageUrl ("data:" ++ im.1 ++ ";base64," ++ (base64Encode im.2).asString)
  let content0 : ZaiContent :=
    if imageParts.length > 0 then
      .parts ((if textJoin ≠ "" then [ZaiContentPart.text textJoin] else []) ++ imageParts)
    else
      .str (if textJoin = "" then "(empty message)" else textJoin)
  let tcInfos := msg.content.filterMap getToolCallInfo
  let (toolCallsRev, ctr) := tcInfos.foldl
    (fun (acc : List ZaiToolCall × Nat) tc =>
      let (made, ctr') := match tc.id with
        | some i => (ZaiToolCall.mk i (tc.name.getD "unknown")
            (jsonStringify (argsOrEmptyObj tc.args)), acc.2)
        | none => (ZaiToolCall.mk ("call_" ++ toString acc.2) (tc.name.getD "unknown")
            (jsonStringify (argsOrEmptyObj tc.args)), acc.2 + 1)
      (made :: acc.1, ctr'))
    ([], ctr)
  let tool_calls := toolCallsRev.reverse
  let toolResultTexts := msg.content.flatMap getToolResultTexts
  let content1 : ZaiContent :=
    if toolResultTexts.length > 0 then
      .str (jsTrimS (String.intercalate " " textParts ++ "\n" ++
        String.intercalate "\n" toolResultTexts))
    else content0
  let tool_call_id := match getFirstToolResultCallId msg.content with
    | some cid => if cid ≠ "" then some cid else none
    | none => none
  (⟨roleStr, content1, tool_calls, tool_call_id⟩, ctr)

/-- `src/utils.ts` `convertMessages`. -/
def convertMessages (messages : List ChatMessage) : List ZaiChatMessage :=
  (messages.foldl
    (fun (acc : List ZaiChatMessage × Nat) msg =>
      let (zm, ctr') := convertOneMessage acc.2 msg
      (zm :: acc.1, ctr'))
    ([], 0)).1.reverse

/-! ## Tools, validation, token estimation (`src/utils.ts`) -/

/-- A host tool declaration (`vscode.LanguageModelChatTool`). -/
structure LMTool where
  name : String
  description : String
  inputSchema : Option Json

/-- A wire tool definition (`ZaiTool`, always `type: "function"`). -/
structure ZaiTool where
  name : String
  description : String
  parameters : Option Json

/-- `src/utils.ts` `convertTools` (empty/missing tool list yields no
`tools` property). -/
def convertTools (tools : List LMTool) : Option (List ZaiTool) :=
  if tools.length = 0 then none
  else some (tools.map fun t => ⟨t.name, t.description, t.inputSchema⟩)

/-- `src/utils.ts` `validateRequest`: reject an empty message list or any
message with no content parts, before anything is sent. -/
def validateRequest (messages : List ChatMessage) : Except String Unit :=
  if messages.length = 0 then .error "Messages array is empty"
  else if messages.any (fun m => m.content.length = 0) then .error "Message has no content"
  else .ok ()

/-- `src/utils.ts` `estimateTokens`: `Math.ceil(text.length / 4)`. -/
def estimateTokens (text : String) : Nat :=
  (text.length + 3) / 4

/-- `src/utils.ts` `estimateMessagesTokens`: length/4 per text part plus a
flat 1500 tokens per image part. -/
def estimateMessagesTokens (messages : List ChatMessage) : Nat :=
  messages.foldl
    (fun total m =>
      m.content.foldl
        (fun t p =>
          match getTextPartValue p with
          | some tv => t + estimateTokens tv
          | none => if (extractImageData p).isSome then t + 1500 else t)
        total)
    0

/-- The `Json` value `JSON.stringify` sees for a `ZaiTool` (absent
`parameters` is skipped). -/
def zaiToolToJson (t : ZaiTool) : Json :=
  .obj [("type", .str "function"),
    ("function", .obj ([("name", .str t.name), ("description", .str t.description)] ++
      (match t.parameters with
       | some p => [("parameters", p)]
       | none => [])))]

/-- Provider `estimateToolTokens`: JSON-serialize the tool array and apply
the length/4 heuristic; no tools costs nothing. -/
def estimateToolTokens (tools : Option (List ZaiTool)) : Nat :=
  match tools with
  | none => 0
  | some ts =>
    if ts.length = 0 then 0
    else estimateTokens (jsonStringify (.arr (ts.map zaiToolToJson)))

/-! ## Model table and vision routing (provider) -/

/-- `ZaiModelInfo` (static model-capability table entry). -/
structure ZaiModelInfo where
  id : String
  name : String
  displayName : String
  contextWindow : Nat
  maxOutput : Nat
  supportsTools : Bool
  supportsVision : Bool
deriving DecidableEq

/-- The static `ZAI_MODELS` table from `src/types.ts`. -/
def ZAI_MODELS : List ZaiModelInfo :=
  [⟨"glm-4.7", "GLM-4.7", "GLM-4.7", 128000, 16000, true, false⟩,
   ⟨"glm-4.7-flash", "GLM-4.7 Flash", "GLM-4.7 Flash", 128000, 16000, true, false⟩,
   ⟨"glm-4.6v", "GLM-4.6", "GLM-4.6", 128000, 16000, true, true⟩]

/-- Provider `getModelInfo`. -/
def getModelInfo (modelId : String) : Option ZaiModelInfo :=
  ZAI_MODELS.find? (fun m => m.id == modelId)

/-- Provider `modelSupportsVision`. -/
def modelSupportsVision (modelId : String) : Bool :=
  ((ZAI_MODELS.find? (fun m => m.id == modelId)).map (·.supportsVision)).getD false

/-- Provider `getVisionFallbackModelId`. -/
def getVisionFallbackModelId : Option String :=
  match ZAI_MODELS.find? (fun m => m.id == "glm-4.6v" && m.supportsVision) with
  | some m => some m.id
  | none => (ZAI_MODELS.find? (·.supportsVision)).map (·.id)

/-- Provider `hasImageInput`. -/
def hasImageInput (messages : List ChatMessage) : Bool :=
  messages.any (fun m => m.content.any (fun p => (extractImageData p).isSome))

/-- Provider `processImagesForNonVisionModel` (the GLM-OCR fallback):
replaces each message's image parts with a textual analysis block.
The external captioning collaborator (`mcpClient.analyzeImage`) is the
parameter `ocrDescribe`, mapping `(imageDataUrl, prompt)` to a description.
Cancellation is modelled as never requested. -/
def processImagesForNonVisionModel (ocrDescribe : String → String → String)
    (messages : List ChatMessage) : List ChatMessage :=
  messages.map fun msg =>
    let textParts := msg.content.filterMap getTextPartValue
    let userPrompt := String.intercalate " " textParts
    let images := msg.content.filterMap extractImageData
    if images.length = 0 then msg
    else
      let descriptions := images.map fun im =>
        let dataUrl := "data:" ++ im.1 ++ ";base64," ++ (base64Encode im.2).asString
        let analysisPrompt := if userPrompt = "" then "Describe this image in detail." else userPrompt
        ocrDescribe dataUrl analysisPrompt
      let newContent := textParts.map InputPart.text ++
        (if descriptions.length > 0 then
          [InputPart.text ("\n\n[Image Analysis]:\n" ++
            String.intercalate "\n\n---\n\n" descriptions)]
        else [])
      ⟨ChatRole.user, newContent⟩

/-- The image-handling prologue of `provideLanguageModelChatResponse`:
returns the effective model id and the (possibly OCR-processed) messages. -/
def routeVision (ocrDescribe : String → String → String) (modelId : String)
    (messages : List ChatMessage) : String × List ChatMessage :=
  if hasImageInput messages then
    if modelSupportsVision modelId then (modelId, messages)
    else
      match getVisionFallbackModelId with
      | some fb =>
        if fb ≠ modelId then (fb, messages)
        else (modelId, processImagesForNonVisionModel ocrDescribe messages)
      | none => (modelId, processImagesForNonVisionModel ocrDescribe messages)
  else (modelId, messages)

/-! ## Request body and the pre-network pipeline (provider) -/

/-- Host-side model description (`LanguageModelChatInformation` subset used
by the pipeline). -/
structure ChatModelInfo where
  id : String
  maxInputTokens : Int
  maxOutputTokens : Int

/-- Host request options (`ProvideLanguageModelChatResponseOptions` subset
used by the pipeline): declared tools and the raw `modelOptions` record. -/
structure ChatOptions where
  tools : List LMTool
  modelOptions : Option (List (String × Json))

/-- `MAX_TOOLS_PER_REQUEST`. -/
def MAX_TOOLS_PER_REQUEST : Nat := 128

/-- Look up a key in the `modelOptions` record. -/
def moGet (mo : Option (List (String × Json))) (key : String) : Option Json :=
  mo.bind fun fs => (fs.find? (fun p => p.1 = key)).map (·.2)

/-- `stop` option after the type allow-list: a string or an all-string
array, otherwise dropped. -/
def allowedStop : Option Json → Option Json
  | some (.str s) => some (.str s)
  | some (.arr xs) =>
    if xs.all (fun x => match x with | .str _ => true | _ => false) then some (.arr xs) else none
  | _ => none

/-- The outbound request body (`ZaiRequestBody`); `temperature` and the
penalties are carried as rationals so the non-integric default `0.7` is
representable. -/
structure ZaiRequestBody where
  model : String
  messages : List ZaiChatMessage
  stream : Bool
  max_tokens : Int
  temperature : Rat
  thinking : Bool
  stop : Option Json
  frequency_penalty : Option Rat
  presence_penalty : Option Rat
  tools : Option (List ZaiTool)

/-- Everything `provideLanguageModelChatResponse` does before the
`fetch` to `{base}/chat/completions`, as a pure function: a missing API
key, too many tools, a failed validation or a blown token budget abort the
request (`Except.error`) before any chat-completions network call; an
`Except.ok` carries the request body that would be sent.  The cancellation
token is modelled as never requested. -/
def pipeline (apiKey : Option String) (thinkingEnabled : Bool)
    (ocrDescribe : String → String → String) (model : ChatModelInfo)
    (messages : List ChatMessage) (options : ChatOptions) :
    Except String ZaiRequestBody :=
  match apiKey with
  | none => .error "Z.ai API key not found"
  | some _ =>
    let routed := routeVision ocrDescribe model.id messages
    let effectiveModelId := routed.1
    let processedMessages := routed.2
    if options.tools.length > MAX_TOOLS_PER_REQUEST then
      .error ("Cannot have more than " ++ toString MAX_TOOLS_PER_REQUEST ++ " tools per request.")
    else
      let toolConfig := convertTools options.tools
      let zaiMessages := convertMessages processedMessages
      match validateRequest processedMessages with
      | .error e => .error e
      | .ok () =>
        let inputTokenCount := estimateMessagesTokens processedMessages
        let toolTokenCount := estimateToolTokens toolConfig
        let effectiveModelInfo := getModelInfo effectiveModelId
        let tokenLimit : Int := max 1 (match effectiveModelInfo with
          | some info => (info.contextWindow : Int) - (info.maxOutput : Int)
          | none => model.maxInputTokens)
        let totalEstimatedTokens : Int := (inputTokenCount : Int) + (toolTokenCount : Int)
        if totalEstimatedTokens > tokenLimit then
          .error "Message exceeds token limit."
        else
          let mo := options.modelOptions
          let maxTokensVal : Int := match moGet mo "max_tokens" with
            | some (.num n) => n
            | _ => 4096
          let temperatureVal : Rat := match moGet mo "temperature" with
            | some (.num n) => (n : Rat)
            | _ => (7 : Rat) / 10
          let effectiveMaxOutputTokens : Int := match effectiveModelInfo with
            | some info => (info.maxOutput : Int)
            | none => model.maxOutputTokens
          .ok
            { model := effectiveModelId
              messages := zaiMessages
              stream := true
              max_tokens := min maxTokensVal effectiveMaxOutputTokens
              temperature := temperatureVal
              thinking := thinkingEnabled
              stop := allowedStop (moGet mo "stop")
              frequency_penalty := match moGet mo "frequency_penalty" with
                | some (.num n) => some (n : Rat)
                | _ => none
              presence_penalty := match moGet mo "presence_penalty" with
                | some (.num n) => some (n : Rat)
                | _ => none
              tools := toolConfig }

/-! ## Streaming state (provider fields reset per request) -/

/-- A structured tool-call buffer (`_toolCallBuffers` entry), accumulating
`id`/`name`/argument fragments for one stream index. -/
structure ToolBuf where
  id : Option String := none
  name : Option String := none
  args : String := ""
deriving DecidableEq

/-- The active inline text tool call (`_textToolActive`). -/
structure ActiveCall where
  name : Option String
  index : Option Nat
  argBuffer : String
  emitted : Bool
deriving DecidableEq

/-- The provider's per-request mutable fields (reset at request start and in
the `finally` of `processStreamingResponse`); `nextIdNum` is the fresh-id
counter modelling `Math.random()` id suffixes. -/
structure StreamState where
  toolCallBuffers : List (Nat × ToolBuf) := []
  completedToolCallIndices : List Nat := []
  hasEmittedAssistantText : Bool := false
  emittedBeginToolCallsHint : Bool := false
  textToolParserBuffer : String := ""
  textToolActive : Option ActiveCall := none
  emittedTextToolCallKeys : List String := []
  emittedTextToolCallIds : List String := []
  hasEmittedThinkingContent : Bool := false
  reasoningContentBuffer : String := ""
  nextIdNum : Nat := 0
deriving DecidableEq

/-- The freshly reset state. -/
def initialStreamState : StreamState := {}

/-- Fresh id `pre_<n>` (models `` `${pre}_${Math.random().toString(36).slice(2, 10)}` ``). -/
def StreamState.genId (st : StreamState) (pre : String) : String × StreamState :=
  (pre ++ "_" ++ toString st.nextIdNum, { st with nextIdNum := st.nextIdNum + 1 })

/-- `Map.get` on the buffer map (insertion-ordered association list). -/
def mapGet? (l : List (Nat × ToolBuf)) (k : Nat) : Option ToolBuf :=
  (l.find? (fun p => p.1 = k)).map (·.2)

/-- `Map.set`: overwrite in place, else append (JS `Map` keeps insertion
order). -/
def mapSet (l : List (Nat × ToolBuf)) (k : Nat) (v : ToolBuf) : List (Nat × ToolBuf) :=
  if l.any (fun p => p.1 = k) then l.map (fun p => if p.1 = k then (k, v) else p)
  else l ++ [(k, v)]

/-- `Map.delete`. -/
def mapDelete (l : List (Nat × ToolBuf)) (k : Nat) : List (Nat × ToolBuf) :=
  l.filter (fun p => p.1 ≠ k)

/-- `Set.add` for string sets. -/
def addSet (l : List String) (x : String) : List String :=
  if x ∈ l then l else l ++ [x]

/-- `Set.add` for index sets. -/
def addSetNat (l : List Nat) (x : Nat) : List Nat :=
  if x ∈ l then l else l ++ [x]

/-- An output event reported to the host progress sink. -/
inductive OutputEvent where
  | text (s : String)
  | toolCall (id name : String) (args : Json)
deriving DecidableEq

/-- Is this event a tool-call part? -/
def OutputEvent.isToolCall : OutputEvent → Bool
  | .toolCall _ _ _ => true
  | _ => false

/-! ## Inline tool-call text parser (provider `processTextContent` etc.) -/

/-- `<|tool_call_begin|>`. -/
def BEGIN_T : String := "<|tool_call_begin|>"

/-- `<|tool_call_argument_begin|>`. -/
def ARGBEGIN_T : String := "<|tool_call_argument_begin|>"

/-- `<|tool_call_end|>`. -/
def END_T : String := "<|tool_call_end|>"

/-- `<|tool_call_argument_end|>` (matched by the strip regex). -/
def ARGEND_T : String := "<|tool_call_argument_end|>"

/-- Begin token chars. -/
def BEGINcl : List Char := BEGIN_T.data

/-- Argument-begin token chars. -/
def ARGBEGINcl : List Char := ARGBEGIN_T.data

/-- End token chars. -/
def ENDcl : List Char := END_T.data

/-- Argument-end token chars. -/
def ARGENDcl : List Char := ARGEND_T.data

/-- Section-token name chars (`[a-zA-Z0-9_-]`). -/
def isSectTokChar (c : Char) : Bool :=
  c.isAlpha || c.isDigit || c == '_' || c == '-'

/-- First replace of `stripControlTokens`: delete every
`<|NAME_section_begin|>` / `<|NAME_section_end|>` token (`NAME` a non-empty
run of `[a-zA-Z0-9_-]`), scanning left to right. -/
def stripSection : Nat → List Char → List Char
  | 0, s => s
  | _, [] => []
  | fuel + 1, s@(c :: rest) =>
    if startsL "<|".data s then
      let run := (s.drop 2).takeWhile isSectTokChar
      let after := (s.drop 2).dropWhile isSectTokChar
      if startsL "|>".data after &&
          ((endsL "_section_begin".data run && run.length > "_section_begin".length) ||
           (endsL "_section_end".data run && run.length > "_section_end".length)) then
        stripSection fuel (after.drop 2)
      else c :: stripSection fuel rest
    else c :: stripSection fuel rest

/-- Second replace of `stripControlTokens`: delete every
`<|tool_call_(argument_)?(begin|end)|>` token. -/
def stripToolTokens : Nat → List Char → List Char
  | 0, s => s
  | _, [] => []
  | fuel + 1, s@(c :: rest) =>
    if startsL BEGINcl s then stripToolTokens fuel (s.drop BEGINcl.length)
    else if startsL ENDcl s then stripToolTokens fuel (s.drop ENDcl.length)
    else if startsL ARGBEGINcl s then stripToolTokens fuel (s.drop ARGBEGINcl.length)
    else if startsL ARGENDcl s then stripToolTokens fuel (s.drop ARGENDcl.length)
    else c :: stripToolTokens fuel rest

/-- Provider `stripControlTokens` (section tokens first, then tool-call
tokens, as in the chained `.replace` calls). -/
def stripControlTokens (s : List Char) : List Char :=
  stripToolTokens s.length (stripSection s.length s)

/-- Tool-name chars of the header pattern `[A-Za-z0-9_\-.]`. -/
def isToolNameChar (c : Char) : Bool :=
  c.isAlpha || c.isDigit || c == '_' || c == '-' || c == '.'

/-- `header.match(/^([A-Za-z0-9_\-.]+)(?::(\d+))?/)`: leading name run plus
an optional `:digits` stream index. -/
def matchHeader (h : List Char) : Option (String × Option Nat) :=
  let nm := h.takeWhile isToolNameChar
  if nm.length = 0 then none
  else
    match h.dropWhile isToolNameChar with
    | ':' :: ds =>
      let digits := ds.takeWhile Char.isDigit
      if digits.length = 0 then some (nm.asString, none)
      else some (nm.asString, some (digitsToNat digits))
    | _ => some (nm.asString, none)

/-- Provider `emitTextToolCallIfValid`: emit an inline tool call once its
argument text parses, deduplicating by `name:index` (when a stream index is
known) or by `name:canonical-args`; returns whether a call was emitted. -/
def emitTextToolCallIfValid (st : StreamState) (call : ActiveCall) (argText : String) :
    StreamState × List OutputEvent × Bool :=
  let name := call.name.getD "unknown_tool"
  match tryParseJSONObject argText with
  | none => (st, [], false)
  | some v =>
    let canonical := jsonStringify v
    let key := name ++ ":" ++ canonical
    let gate : Option StreamState :=
      match call.index with
      | some i =>
        let idKey := name ++ ":" ++ toString i
        if idKey ∈ st.emittedTextToolCallIds then none
        else some { st with emittedTextToolCallIds := addSet st.emittedTextToolCallIds idKey }
      | none =>
        if key ∈ st.emittedTextToolCallKeys then none else some st
    match gate with
    | none => (st, [], false)
    | some st1 =>
      let st2 := { st1 with emittedTextToolCallKeys := addSet st1.emittedTextToolCallKeys key }
      let (id, st3) := st2.genId "tct"
      (st3, [.toolCall id name v], true)

/-- Provider `tryEmitJsonToolCallLine`: recognize a whole text line that is
a bare JSON tool-call object (`name`/`function.name` plus
`input`/`arguments`); returns whether the line was consumed. -/
def tryEmitJsonToolCallLine (st : StreamState) (line : List Char) :
    StreamState × List OutputEvent × Bool :=
  let trimmed := jsTrim line
  if !(startsL ['\x7b'] trimmed && endsL ['\x7d'] trimmed) then (st, [], false)
  else
    match tryParseJSONObject trimmed.asString with
    | none => (st, [], false)
    | some obj =>
      let fnVal := jsGet obj "function"
      let name : Option String :=
        match jsGet obj "name" with
        | some (.str s) => some s
        | _ =>
          match fnVal with
          | some f =>
            if jsTruthy f then
              match jsGet f "name" with
              | some (.str s) => some s
              | _ => none
            else none
          | none => none
      match name with
      | none => (st, [], false)
      | some name =>
        if name = "" then (st, [], false)
        else
          let callId : Option String :=
            match jsGet obj "callId" with
            | some (.str s) => some s
            | _ =>
              match jsGet obj "id" with
              | some (.str s) => some s
              | _ => none
          let inputA : Option Json :=
            match jsGet obj "input" with
            | some (.obj fs) => some (.obj fs)
            | _ => none
          let input : Option Json :=
            match inputA with
            | some v => some v
            | none =>
              let argsVal : Option Json :=
                match jsGet obj "arguments" with
                | some .null => fnVal.bind (fun f => jsGet f "arguments")
                | none => fnVal.bind (fun f => jsGet f "arguments")
                | some v => some v
              match argsVal with
              | some (.str sArgs) => tryParseJSONObject sArgs
              | some (.obj fs) => some (.obj fs)
              | _ => none
          match input with
          | none => (st, [], false)
          | some inputV =>
            if !jsTruthy inputV then (st, [], false)
            else
              let canonical := jsonStringify inputV
              let key := name ++ ":" ++ canonical
              if key ∈ st.emittedTextToolCallKeys then (st, [], true)
              else
                let st1 := { st with
                  emittedTextToolCallKeys := addSet st.emittedTextToolCallKeys key }
                let st2 := match callId with
                  | some cid =>
                    if cid ≠ "" then
                      let ids' := addSet st1.emittedTextToolCallIds (name ++ ":" ++ cid)
                      { st1 with emittedTextToolCallIds := ids' }
                    else st1
                  | none => st1
                let (id, st3) := match callId with
                  | some cid => (cid, st2)
                  | none => st2.genId "jtc"
                (st3, [.toolCall id name inputV], true)

/-- The partial-begin-token scan of `processTextContent` (loop from
`min(BEGIN.length - 1, data.length - 1)` down to `1`, stopping at the first
`k` with `data.endsWith(BEGIN.slice(0, k))`). -/
def longestPartialAux (data : List Char) : Nat → Nat
  | 0 => 0
  | k + 1 => if endsL (BEGINcl.take (k + 1)) data then k + 1 else longestPartialAux data k

/-- Length of the longest proper begin-token prefix at the tail of `data`
that the source's scan detects. -/
def longestPartial (data : List Char) : Nat :=
  longestPartialAux data (min (BEGINcl.length - 1) (data.length - 1))

/-- The per-line loop of `processTextContent`'s bare-JSON branch: consumed
lines produce tool calls, the rest accumulate as visible text joined with
`\n`. -/
def processLines (st : StreamState) (lines : List (List Char)) (visible : List Char)
    (events : List OutputEvent) (emittedAny : Bool) :
    StreamState × List Char × List OutputEvent × Bool :=
  match lines with
  | [] => (st, visible, events, emittedAny)
  | [line] =>
    let r := tryEmitJsonToolCallLine st line
    if r.2.2 then (r.1, visible, events ++ r.2.1, true)
    else (st, visible ++ stripControlTokens line, events, emittedAny)
  | line :: rest =>
    let r := tryEmitJsonToolCallLine st line
    if r.2.2 then processLines r.1 rest visible (events ++ r.2.1) true
    else processLines st rest (visible ++ stripControlTokens line ++ ['\n']) events emittedAny

/-- The `while (data.length > 0)` loop of `processTextContent` (fuel is the
remaining data length plus one; every iteration consumes input).  Returns
the state, the final value of the loop's `data` variable, the visible-text
accumulator, the emitted events, and the `emittedAny` flag. -/
def ptcLoop (fuel : Nat) (st : StreamState) (data visible : List Char)
    (events : List OutputEvent) (emittedAny : Bool) :
    StreamState × List Char × List Char × List OutputEvent × Bool :=
  match fuel with
  | 0 => (st, data, visible, events, emittedAny)
  | fuel + 1 =>
    if data.length = 0 then (st, data, visible, events, emittedAny)
    else
      match st.textToolActive with
      | none =>
        match findSub? BEGINcl data with
        | none =>
          let lp := longestPartial data
          if lp > 0 then
            let vis := data.take (data.length - lp)
            let visible := if vis.length > 0 then visible ++ stripControlTokens vis else visible
            ({ st with textToolParserBuffer := (data.drop (data.length - lp)).asString },
              [], visible, events, emittedAny)
          else
            let r := processLines st (splitLinesJS data) visible events emittedAny
            (r.1, [], r.2.1, r.2.2.1, r.2.2.2)
        | some b =>
          let pre := data.take b
          let visible := if pre.length > 0 then visible ++ stripControlTokens pre else visible
          let data1 := data.drop (b + BEGINcl.length)
          let a? := findSub? ARGBEGINcl data1
          let e? := findSub? ENDcl data1
          let delim : Option (Nat × Bool) :=
            match a?, e? with
            | some a, some e => if a < e then some (a, true) else some (e, false)
            | some a, none => some (a, true)
            | none, some e => some (e, false)
            | none, none => none
          match delim with
          | none =>
            ({ st with textToolParserBuffer := (BEGINcl ++ data1).asString },
              [], visible, events, emittedAny)
          | some (dIdx, isArg) =>
            let header := jsTrim (data1.take dIdx)
            let m := matchHeader header
            let act : ActiveCall :=
              { name := m.map (·.1), index := m.bind (·.2), argBuffer := "", emitted := false }
            if isArg then
              ptcLoop fuel { st with textToolActive := some act }
                (data1.drop (dIdx + ARGBEGINcl.length)) visible events emittedAny
            else
              let data2 := data1.drop (dIdx + ENDcl.length)
              let r := emitTextToolCallIfValid st act "\x7b\x7d"
              ptcLoop fuel { r.1 with textToolActive := none } data2 visible
                (events ++ r.2.1) (emittedAny || r.2.2)
      | some act =>
        match findSub? ENDcl data with
        | none =>
          let act1 := { act with argBuffer := act.argBuffer ++ data.asString }
          if act1.emitted then
            ({ st with textToolActive := some act1 }, [], visible, events, emittedAny)
          else
            let r := emitTextToolCallIfValid st act1 act1.argBuffer
            let act2 := if r.2.2 then { act1 with emitted := true } else act1
            ({ r.1 with textToolActive := some act2 }, [], visible, events ++ r.2.1,
              emittedAny || r.2.2)
        | some e2 =>
          let act1 := { act with argBuffer := act.argBuffer ++ (data.take e2).asString }
          let data1 := data.drop (e2 + ENDcl.length)
          if act1.emitted then
            ptcLoop fuel { st with textToolActive := none } data1 visible events emittedAny
          else
            let r := emitTextToolCallIfValid st act1 act1.argBuffer
            ptcLoop fuel { r.1 with textToolActive := none } data1 visible
              (events ++ r.2.1) (emittedAny || r.2.2)

/-- Provider `processTextContent`: run the loop on carryover + input, then
report the accumulated visible text (after any tool calls found in the same
chunk) and store the loop's final `data` into the parser buffer.  Returns
`(state, events, emittedText, emittedAny)`. -/
def processTextContent (st : StreamState) (input : String) :
    StreamState × List OutputEvent × Bool × Bool :=
  let data := st.textToolParserBuffer.data ++ input.data
  let r := ptcLoop (data.length + 1) st data [] [] false
  let st1 := r.1
  let dataF := r.2.1
  let visible := r.2.2.1
  let events := r.2.2.2.1
  let emittedAny := r.2.2.2.2
  if visible.length > 0 then
    ({ st1 with textToolParserBuffer := dataF.asString },
      events ++ [.text visible.asString], true, true)
  else
    ({ st1 with textToolParserBuffer := dataF.asString }, events, false, emittedAny)

/-- Provider `flushActiveTextToolCall`: at end of turn, emit the active
inline call if its buffered arguments parse, otherwise leave it (the claim
surface only depends on no event being produced). -/
def flushActiveTextToolCall (st : StreamState) : StreamState × List OutputEvent :=
  match st.textToolActive with
  | none => (st, [])
  | some act =>
    match tryParseJSONObject act.argBuffer with
    | none => (st, [])
    | some _ =>
      let r := emitTextToolCallIfValid st act act.argBuffer
      ({ r.1 with textToolActive := none }, r.2.1)

/-! ## Structured tool-call buffers (provider) -/

/-- Provider `tryEmitBufferedToolCall`: opportunistically emit a buffered
structured call once a (truthy) name is known and the accumulated arguments
parse; the emitted call's canonical key joins the shared dedup set and its
index is marked completed. -/
def tryEmitBufferedToolCall (st : StreamState) (index : Nat) :
    StreamState × List OutputEvent :=
  match mapGet? st.toolCallBuffers index with
  | none => (st, [])
  | some buf =>
    match buf.name with
    | none => (st, [])
    | some n =>
      if n = "" then (st, [])
      else
        match tryParseJSONObject buf.args with
        | none => (st, [])
        | some v =>
          let (id, st1) := match buf.id with
            | some i => (i, st)
            | none => st.genId "call"
          let st2 := { st1 with
            emittedTextToolCallKeys :=
              addSet st1.emittedTextToolCallKeys (n ++ ":" ++ jsonStringify v) }
          let st3 := { st2 with
            toolCallBuffers := mapDelete st2.toolCallBuffers index,
            completedToolCallIndices := addSetNat st2.completedToolCallIndices index }
          (st3, [.toolCall id n v])

/-- The iteration of `flushToolCallBuffers` over the snapshot of buffer
entries: invalid argument JSON either raises (`throwOnInvalid`) or skips the
entry; valid entries are emitted with `unknown_tool`/generated-id defaults. -/
def flushLoop (st : StreamState) (entries : List (Nat × ToolBuf)) (throwOnInvalid : Bool) :
    Except String (StreamState × List OutputEvent) :=
  match entries with
  | [] => .ok (st, [])
  | (idx, buf) :: rest =>
    match tryParseJSONObject buf.args with
    | none =>
      if throwOnInvalid then .error "Invalid JSON for tool call"
      else flushLoop st rest throwOnInvalid
    | some v =>
      let (id, st1) := match buf.id with
        | some i => (i, st)
        | none => st.genId "call"
      let name := buf.name.getD "unknown_tool"
      let st2 := { st1 with
        emittedTextToolCallKeys :=
          addSet st1.emittedTextToolCallKeys (name ++ ":" ++ jsonStringify v) }
      let st3 := { st2 with
        toolCallBuffers := mapDelete st2.toolCallBuffers idx,
        completedToolCallIndices := addSetNat st2.completedToolCallIndices idx }
      match flushLoop st3 rest throwOnInvalid with
      | .error e => .error e
      | .ok (st4, evs) => .ok (st4, OutputEvent.toolCall id name v :: evs)

/-- Provider `flushToolCallBuffers`. -/
def flushToolCallBuffers (st : StreamState) (throwOnInvalid : Bool) :
    Except String (StreamState × List OutputEvent) :=
  if st.toolCallBuffers.length = 0 then .ok (st, [])
  else flushLoop st st.toolCallBuffers throwOnInvalid

/-! ## Reasoning formatter and the delta dispatcher -/

/-- Provider `formatReasoningContent`: normalized, line-wise block-quoted
text under an in-progress/complete header, closed by a separator. -/
def formatReasoningContent (content : String) (isComplete : Bool) : String :=
  let normalized := jsTrimS (content.replace "\r\n" "\n")
  let quotedLines := String.intercalate "\n"
    ((normalized.splitOn "\n").map (fun line => "> " ++ line))
  let header := if isComplete then "> **🧠 Thinking Process**" else "> *🧠 Thinking...*"
  header ++ "\n>\n" ++ quotedLines ++ "\n\n---\n\n"

/-- A streamed partial tool call (`delta.tool_calls[i]`). -/
structure PartialFn where
  name : Option String := none
  arguments : Option String := none
deriving DecidableEq

/-- A streamed partial tool call entry. -/
structure PartialToolCall where
  index : Option Nat := none
  id : Option String := none
  function : Option PartialFn := none
deriving DecidableEq

/-- A streamed delta object. -/
structure StreamDeltaObj where
  content : Option String := none
  reasoning_content : Option String := none
  tool_calls : Option (List PartialToolCall) := none
deriving DecidableEq

/-- A streamed choice. -/
structure StreamChoice where
  delta : Option StreamDeltaObj := none
  finish_reason : Option String := none
deriving DecidableEq

/-- A decoded SSE event (`ZaiStreamResponse`). -/
structure StreamEvent where
  choices : List StreamChoice := []
deriving DecidableEq

/-- One `delta.tool_calls` entry of `processDelta`: route by index into the
buffer map (ignoring completed indices), accumulate, and attempt an
opportunistic emit. -/
def deltaToolCallStep (acc : StreamState × List OutputEvent) (tc : PartialToolCall) :
    StreamState × List OutputEvent :=
  let (st, evs) := acc
  let idx := tc.index.getD 0
  if idx ∈ st.completedToolCallIndices then (st, evs)
  else
    let buf := (mapGet? st.toolCallBuffers idx).getD {}
    let buf := match tc.id with
      | some i => if i ≠ "" then { buf with id := some i } else buf
      | none => buf
    let buf := match tc.function.bind (·.name) with
      | some n => if n ≠ "" then { buf with name := some n } else buf
      | none => buf
    let buf := match tc.function.bind (·.arguments) with
      | some a => { buf with args := buf.args ++ a }
      | none => buf
    let st := { st with toolCallBuffers := mapSet st.toolCallBuffers idx buf }
    let r := tryEmitBufferedToolCall st idx
    (r.1, evs ++ r.2)

/-- Provider `processDelta`: handle one decoded SSE event — buffer
reasoning, flush reasoning before answer text, feed answer text through the
inline parser, accumulate structured tool-call deltas (after a one-time
whitespace rendering hint), and force-flush on a `tool_calls`/`stop` finish
reason (which may raise). -/
def processDelta (thinkingEnabled : Bool) (st : StreamState) (ev : StreamEvent) :
    Except String (StreamState × List OutputEvent) :=
  match ev.choices.head? with
  | none => .ok (st, [])
  | some choice =>
    let st := match choice.delta.bind (·.reasoning_content) with
      | some rc =>
        if thinkingEnabled && rc ≠ "" then
          { st with reasoningContentBuffer := st.reasoningContentBuffer ++ rc,
                    hasEmittedThinkingContent := true }
        else st
      | none => st
    let contentStep : StreamState × List OutputEvent :=
      match choice.delta.bind (·.content) with
      | some c =>
        if c ≠ "" then
          let (st, evsR) :=
            if thinkingEnabled && st.reasoningContentBuffer ≠ "" then
              ({ st with reasoningContentBuffer := "" },
                [OutputEvent.text (formatReasoningContent st.reasoningContentBuffer true)])
            else (st, [])
          let r := processTextContent st c
          let st := if r.2.2.1 then { r.1 with hasEmittedAssistantText := true } else r.1
          (st, evsR ++ r.2.1)
        else (st, [])
      | none => (st, [])
    let (st, evsC) := contentStep
    let toolStep : StreamState × List OutputEvent :=
      match choice.delta.bind (·.tool_calls) with
      | some tcs =>
        let (st, hintEvs) :=
          if !st.emittedBeginToolCallsHint && st.hasEmittedAssistantText && tcs.length > 0 then
            ({ st with emittedBeginToolCallsHint := true }, [OutputEvent.text " "])
          else (st, [])
        let r := tcs.foldl deltaToolCallStep (st, [])
        (r.1, hintEvs ++ r.2)
      | none => (st, [])
    let (st, evsT) := toolStep
    match choice.finish_reason with
    | some fr =>
      if fr = "tool_calls" || fr = "stop" then
        match flushToolCallBuffers st true with
        | .error e => .error e
        | .ok (st, evsF) => .ok (st, evsC ++ evsT ++ evsF)
      else .ok (st, evsC ++ evsT)
    | none => .ok (st, evsC ++ evsT)

/-- The `[DONE]` branch of `processStreamingResponse`: flush buffered
reasoning (as a completed block), then the structured buffers (tolerantly,
no throw) and the active inline call. -/
def processDone (thinkingEnabled : Bool) (st : StreamState) :
    Except String (StreamState × List OutputEvent) :=
  let (st, evsR) :=
    if thinkingEnabled && st.reasoningContentBuffer ≠ "" then
      ({ st with reasoningContentBuffer := "" },
        [OutputEvent.text (formatReasoningContent st.reasoningContentBuffer true)])
    else (st, [])
  match flushToolCallBuffers st false with
  | .error e => .error e
  | .ok (st, evsF) =>
    let r := flushActiveTextToolCall st
    .ok (r.1, evsR ++ evsF ++ r.2)

/-- One item of the decoded SSE stream: a JSON event or the `[DONE]`
sentinel. -/
inductive SseItem where
  | event (e : StreamEvent)
  | done
deriving DecidableEq

/-- Drive the dispatcher over a decoded item stream, accumulating output
events in emission order. -/
def processItems (thinkingEnabled : Bool) (st : StreamState) :
    List SseItem → Except String (StreamState × List OutputEvent)
  | [] => .ok (st, [])
  | item :: rest =>
    let step := match item with
      | .event e => processDelta thinkingEnabled st e
      | .done => processDone thinkingEnabled st
    match step with
    | .error e => .error e
    | .ok (st1, evs) =>
      match processItems thinkingEnabled st1 rest with
      | .error e => .error e
      | .ok (st2, evs') => .ok (st2, evs ++ evs')

/-- The output events of an item stream processed from the fresh state
(`none` when the stream raises). -/
def runOutputs (thinkingEnabled : Bool) (items : List SseItem) : Option (List OutputEvent) :=
  match processItems thinkingEnabled initialStreamState items with
  | .ok (_, evs) => some evs
  | .error _ => none

/-! ## Concrete stream items used by the claims -/

/-- A finish-only stream event (`{finish_reason: fr}` with no delta). -/
def finishEvent (fr : String) : StreamEvent :=
  ⟨[{ finish_reason := some fr }]⟩

/-- A stream event carrying only reasoning-channel text. -/
def reasoningEv (rc : String) : StreamEvent :=
  ⟨[{ delta := some { reasoning_content := some rc } }]⟩

/-- An SSE item carrying only reasoning-channel text. -/
def reasoningEvent (rc : String) : SseItem :=
  .event (reasoningEv rc)

/-- A stream event carrying only answer-channel text. -/
def contentEv (c : String) : StreamEvent :=
  ⟨[{ delta := some { content := some c } }]⟩

/-- An SSE item carrying only answer-channel text. -/
def contentEvent (c : String) : SseItem :=
  .event (contentEv c)

/-- An SSE item carrying structured tool-call deltas. -/
def toolDeltaEvent (tcs : List PartialToolCall) : SseItem :=
  .event ⟨[{ delta := some { tool_calls := some tcs } }]⟩

/-- First structured delta of the §8 round-trip example. -/
def c8Delta1 : PartialToolCall :=
  { index := some 0
    id := some "c1"
    function := some { name := some "lookup", arguments := some "" } }

/-- Second structured delta of the §8 round-trip example. -/
def c8Delta2 : PartialToolCall :=
  { index := some 0
    function := some { arguments := some "\x7b\"q\":\"x\"\x7d" } }

/-- The §8 round-trip example input stream. -/
def c8Items : List SseItem :=
  [contentEvent "Let me check ",
   toolDeltaEvent [c8Delta1],
   toolDeltaEvent [c8Delta2],
   .event (finishEvent "tool_calls")]

/-- The §8 chunk-boundary control-token sequence
`<|tool_call_begin|>foo<|tool_call_argument_begin|>{"a":1}<|tool_call_end|>`. -/
def c2seq : String :=
  BEGIN_T ++ "foo" ++ ARGBEGIN_T ++ "\x7b\"a\":1\x7d" ++ END_T

/-- Feed raw text chunks through the inline text parser from the fresh
state, then apply the `[DONE]` end-of-turn flush of the active inline call;
collect the events. -/
def runTextChunks (chunks : List String) : List OutputEvent :=
  let r := chunks.foldl
    (fun (acc : StreamState × List OutputEvent) c =>
      let p := processTextContent acc.1 c
      (p.1, acc.2 ++ p.2.1))
    (initialStreamState, [])
  let f := flushActiveTextToolCall r.1
  r.2 ++ f.2

/-- Split the §8 sequence at byte offset `k` into two sequential reads. -/
def runTextSplit (k : Nat) : List OutputEvent :=
  runTextChunks [(c2seq.data.take k).asString, (c2seq.data.drop k).asString]

/-- The single tool-call event that the unsplit §8 sequence produces. -/
def c2expected : List OutputEvent :=
  [.toolCall "tct_0" "foo" (.obj [("a", .num 1)])]

/-- A structured-delta encoding of the logical call `n(s)` (explicit id
`"sid"`, stream index 0). -/
def structuredItem (n s : String) : SseItem :=
  toolDeltaEvent
    [{ index := some 0
       id := some "sid"
       function := some { name := some n, arguments := some s } }]

/-- The inline control-token encoding of the logical call `n(s)`. -/
def inlineItem (n s : String) : SseItem :=
  contentEvent (BEGIN_T ++ n ++ ARGBEGIN_T ++ s ++ END_T)

/-- Number of buffered structured calls whose accumulated arguments
currently parse as valid JSON. -/
def countValidBuffers (l : List (Nat × ToolBuf)) : Nat :=
  (l.filter (fun p => (tryParseJSONObject p.2.args).isSome)).length

/-- Answer text free of the characters that the inline tool-call text
parser treats specially (`<` starts control tokens, `\x7b` can start a bare
JSON tool-call line, and line breaks trigger the line scanner). -/
def PlainAnswer (s : String) : Prop :=
  ∀ c ∈ s.data, c ≠ '<' ∧ c ≠ '\x7b' ∧ c ≠ '\n' ∧ c ≠ '\r'

instance (s : String) : Decidable (PlainAnswer s) := by
  unfold PlainAnswer; infer_instance

/-- A state holding one structured buffer whose accumulated arguments
`"\x7b"` are incomplete JSON. -/
def c1State : StreamState :=
  { toolCallBuffers := [(0, { name := some "f", args := "\x7b" })] }

/-- A state holding one structured buffer that never received a function
name, with complete (empty-object) argument JSON. -/
def c10State : StreamState :=
  { toolCallBuffers := [(0, { args := "\x7b\x7d" })] }

/-- 75 image parts (75 × 1500 = 112500 estimated tokens, over the
128000 − 16000 budget of `glm-4.6v`). -/
def c4Parts : List InputPart :=
  [InputPart.data "image/png" [0],
   InputPart.data "image/png" [0],
   InputPart.data "image/png" [0],
   InputPart.data "image/png" [0],
   InputPart.data "image/png" [0],
   InputPart.data "image/png" [0],
   InputPart.data "image/png" [0],
   InputPart.data "image/png" [0],
   InputPart.data "image/png" [0],
   InputPart.data "image/png" [0],
   InputPart.data "image/png" [0],
   InputPart.data "image/png" [0],
   InputPart.data "image/png" [0],
   InputPart.data "image/png" [0],
   InputPart.data "image/png" [0],
   InputPart.data "image/png" [0],
   InputPart.data "image/png" [0],
   InputPart.data "image/png" [0],
   InputPart.data "image/png" [0],
   InputPart.data "image/png" [0],
   InputPart.data "image/png" [0],
   InputPart.data "image/png" [0],
   InputPart.data "image/png" [0],
   InputPart.data "image/png" [0],
   InputPart.data "image/png" [0],
   InputPart.data "image/png" [0],
   InputPart.data "image/png" [0],
   InputPart.data "image/png" [0],
   InputPart.data "image/png" [0],
   InputPart.data "image/png" [0],
   InputPart.data "image/png" [0],
   InputPart.data "image/png" [0],
   InputPart.data "image/png" [0],
   InputPart.data "image/png" [0],
   InputPart.data "image/png" [0],
   InputPart.data "image/png" [0],
   InputPart.data "image/png" [0],
   InputPart.data "image/png" [0],
   InputPart.data "image/png" [0],
   InputPart.data "image/png" [0],
   InputPart.data "image/png" [0],
   InputPart.data "image/png" [0],
   InputPart.data "image/png" [0],
   InputPart.data "image/png" [0],
   InputPart.data "image/png" [0],
   InputPart.data "image/png" [0],
   InputPart.data "image/png" [0],
   InputPart.data "image/png" [0],
   InputPart.data "image/png" [0],
   InputPart.data "image/png" [0],
   InputPart.data "image/png" [0],
   InputPart.data "image/png" [0],
   InputPart.data "image/png" [0],
   InputPart.data "image/png" [0],
   InputPart.data "image/png" [0],
   InputPart.data "image/png" [0],
   InputPart.data "image/png" [0],
   InputPart.data "image/png" [0],
   InputPart.data "image/png" [0],
   InputPart.data "image/png" [0],
   InputPart.data "image/png" [0],
   InputPart.data "image/png" [0],
   InputPart.data "image/png" [0],
   InputPart.data "image/png" [0],
   InputPart.data "image/png" [0],
   InputPart.data "image/png" [0],
   InputPart.data "image/png" [0],
   InputPart.data "image/png" [0],
   InputPart.data "image/png" [0],
   InputPart.data "image/png" [0],
   InputPart.data "image/png" [0],
   InputPart.data "image/png" [0],
   InputPart.data "image/png" [0],
   InputPart.data "image/png" [0],
   InputPart.data "image/png" [0]]

/-- The single over-budget user message of the C4 witness. -/
def c4Msgs : List ChatMessage := [⟨ChatRole.user, c4Parts⟩]

/-! ## Basic lemmas about the string primitives -/

theorem asString_data (s : String) : s.data.asString = s := by
  cases s; rfl

theorem startsL_self_append (p r : List Char) : startsL p (p ++ r) = true := by
  induction p with
  | nil => rfl
  | cons a t ih => simp [startsL, ih]

theorem startsL_mem {p q : List Char} (h : startsL p q = true) : ∀ c ∈ p, c ∈ q := by
  induction p generalizing q with
  | nil => simp
  | cons a t ih =>
    cases q with
    | nil => simp [startsL] at h
    | cons b u =>
      simp only [startsL, Bool.and_eq_true, beq_iff_eq] at h
      obtain ⟨rfl, h2⟩ := h
      intro c hc
      rcases List.mem_cons.mp hc with rfl | hc
      · exact List.mem_cons_self _ _
      · exact List.mem_cons_of_mem _ (ih h2 c hc)

theorem startsL_append_left {p x : List Char} (r : List Char) (h : p.length ≤ x.length) :
    startsL p (x ++ r) = startsL p x := by
  induction p generalizing x with
  | nil => simp [startsL]
  | cons a t ih =>
    cases x with
    | nil => simp at h
    | cons b u =>
      simp only [List.cons_append, startsL, List.append_eq]
      simp only [List.length_cons, Nat.add_le_add_iff_right] at h
      rw [ih h]

theorem findSub?_of_startsL {p s : List Char} (h : startsL p s = true) :
    findSub? p s = some 0 := by
  cases s with
  | nil =>
    cases p with
    | nil => rfl
    | cons a t => simp [startsL] at h
  | cons b u => simp [findSub?, h]

theorem findSub?_cons_of_not {p : List Char} {a : Char} {t : List Char}
    (h : startsL p (a :: t) = false) :
    findSub? p (a :: t) = (findSub? p t).map (· + 1) := by
  simp [findSub?, h]

theorem findSub?_none_of_head {c0 : Char} {p' s : List Char} (h : ∀ c ∈ s, c ≠ c0) :
    findSub? (c0 :: p') s = none := by
  induction s with
  | nil => rfl
  | cons b u ih =>
    have hb : (startsL (c0 :: p') (b :: u)) = false := by
      simp only [startsL, Bool.and_eq_false_iff, beq_eq_false_iff_ne]
      exact Or.inl (fun hcb => (h b (List.mem_cons_self _ _)) hcb.symm)
    rw [findSub?_cons_of_not hb, ih (fun c hc => h c (List.mem_cons_of_mem _ hc))]
    rfl

theorem findSub?_append_free {c0 : Char} {p' : List Char} (x y : List Char)
    (hx : ∀ c ∈ x, c ≠ c0) :
    findSub? (c0 :: p') (x ++ y) = (findSub? (c0 :: p') y).map (· + x.length) := by
  induction x with
  | nil =>
    rw [List.nil_append]
    cases findSub? (c0 :: p') y <;> simp
  | cons b u ih =>
    have hb : (startsL (c0 :: p') (b :: (u ++ y))) = false := by
      simp only [startsL, Bool.and_eq_false_iff, beq_eq_false_iff_ne]
      exact Or.inl (fun hcb => (hx b (List.mem_cons_self _ _)) hcb.symm)
    rw [List.cons_append, findSub?_cons_of_not hb,
      ih (fun c hc => hx c (List.mem_cons_of_mem _ hc))]
    cases findSub? (c0 :: p') y <;> simp <;> omega

theorem findSub?_block {pat : List Char} {c0 : Char} (x y : List Char)
    (hpat : pat.head? = some c0) (hx : x.head? = some c0)
    (hxt : ∀ c ∈ x.tail, c ≠ c0) (hno : startsL pat (x ++ y) = false) :
    findSub? pat (x ++ y) = (findSub? pat y).map (· + x.length) := by
  cases x with
  | nil => simp at hx
  | cons b u =>
    simp only [List.head?_cons, Option.some_inj] at hx
    subst hx
    cases pat with
    | nil => simp at hpat
    | cons pc pt =>
      simp only [List.head?_cons, Option.some_inj] at hpat
      subst hpat
      rw [List.cons_append, findSub?_cons_of_not (by rwa [List.cons_append] at hno),
        findSub?_append_free u y hxt]
      cases findSub? (pc :: pt) y <;> simp <;> omega

theorem dropWhile_eq_self_of_all {p : Char → Bool} {l : List Char}
    (h : ∀ c ∈ l, p c = false) : l.dropWhile p = l := by
  cases l with
  | nil => rfl
  | cons a t => simp [List.dropWhile, h a (List.mem_cons_self _ _)]

theorem jsTrim_eq_self {l : List Char} (h : ∀ c ∈ l, isJsSpace c = false) : jsTrim l = l := by
  unfold jsTrim
  rw [dropWhile_eq_self_of_all h,
    dropWhile_eq_self_of_all (fun c hc => h c (by simpa using hc)), List.reverse_reverse]

theorem jsTrim_subset {l : List Char} : ∀ c ∈ jsTrim l, c ∈ l := by
  intro c hc
  unfold jsTrim at hc
  rw [List.mem_reverse] at hc
  have h1 := (List.dropWhile_sublist (l := (l.dropWhile isJsSpace).reverse) isJsSpace).subset hc
  rw [List.mem_reverse] at h1
  exact (List.dropWhile_sublist isJsSpace).subset h1

theorem takeWhile_eq_self_of_all {p : Char → Bool} {l : List Char}
    (h : ∀ c ∈ l, p c = true) : l.takeWhile p = l := by
  induction l with
  | nil => rfl
  | cons a t ih =>
    simp [List.takeWhile, h a (List.mem_cons_self _ _),
      ih (fun c hc => h c (List.mem_cons_of_mem _ hc))]

theorem dropWhile_eq_nil_of_all {p : Char → Bool} {l : List Char}
    (h : ∀ c ∈ l, p c = true) : l.dropWhile p = [] := by
  induction l with
  | nil => rfl
  | cons a t ih =>
    simp [List.dropWhile, h a (List.mem_cons_self _ _),
      ih (fun c hc => h c (List.mem_cons_of_mem _ hc))]

theorem splitLinesJS_single {l : List Char} (h : ∀ c ∈ l, c ≠ '\n' ∧ c ≠ '\r') :
    splitLinesJS l = [l] := by
  induction l with
  | nil => rfl
  | cons a t ih =>
    obtain ⟨ha1, ha2⟩ := h a (List.mem_cons_self _ _)
    have ht := ih (fun c hc => h c (List.mem_cons_of_mem _ hc))
    rw [splitLinesJS.eq_def]
    simp only [ha1, ha2, if_false, ht]

/-! ## The inline parser on plain text -/

theorem endsL_mem {p s : List Char} (h : endsL p s = true) : ∀ c ∈ p, c ∈ s := by
  intro c hc
  have := startsL_mem h c (by simpa using hc)
  simpa using this

theorem stripSection_no_lt {l : List Char} (h : ∀ c ∈ l, c ≠ '<') (fuel : Nat) :
    stripSection fuel l = l := by
  induction fuel generalizing l with
  | zero => cases l <;> rfl
  | succ fuel ih =>
    cases l with
    | nil => rfl
    | cons c rest =>
      have hc : c ≠ '<' := h c (List.mem_cons_self _ _)
      rw [stripSection]
      have hs : startsL "<|".data (c :: rest) = false := by
        simp only [startsL, Bool.and_eq_false_iff, beq_eq_false_iff_ne]
        exact Or.inl (fun hh => hc hh.symm)
      rw [if_neg (by simp [hs]), ih (fun c hc => h c (List.mem_cons_of_mem _ hc))]

theorem stripToolTokens_no_lt {l : List Char} (h : ∀ c ∈ l, c ≠ '<') (fuel : Nat) :
    stripToolTokens fuel l = l := by
  induction fuel generalizing l with
  | zero => cases l <;> rfl
  | succ fuel ih =>
    cases l with
    | nil => rfl
    | cons c rest =>
      have hc : c ≠ '<' := h c (List.mem_cons_self _ _)
      have hk : ∀ pat : List Char, pat.head? = some '<' → startsL pat (c :: rest) = false := by
        intro pat hp
        cases pat with
        | nil => simp at hp
        | cons p0 pt =>
          simp only [List.head?_cons, Option.some_inj] at hp
          subst hp
          simp only [startsL, Bool.and_eq_false_iff, beq_eq_false_iff_ne]
          exact Or.inl (fun hh => hc hh.symm)
      rw [stripToolTokens]
      rw [if_neg (by simp [hk BEGINcl (by decide)]),
        if_neg (by simp [hk ENDcl (by decide)]),
        if_neg (by simp [hk ARGBEGINcl (by decide)]),
        if_neg (by simp [hk ARGENDcl (by decide)]),
        ih (fun c hc => h c (List.mem_cons_of_mem _ hc))]

theorem stripControlTokens_no_lt {l : List Char} (h : ∀ c ∈ l, c ≠ '<') :
    stripControlTokens l = l := by
  unfold stripControlTokens
  rw [stripSection_no_lt h, stripToolTokens_no_lt h]

theorem findSub?_BEGIN_none {l : List Char} (h : ∀ c ∈ l, c ≠ '<') :
    findSub? BEGINcl l = none := by
  have : BEGINcl = '<' :: BEGINcl.tail := by decide
  rw [this]
  exact findSub?_none_of_head h

theorem longestPartial_zero {data : List Char} (h : ∀ c ∈ data, c ≠ '<') :
    longestPartial data = 0 := by
  unfold longestPartial
  generalize min (BEGINcl.length - 1) (data.length - 1) = k
  induction k with
  | zero => rfl
  | succ k ih =>
    rw [longestPartialAux]
    have hend : endsL (BEGINcl.take (k + 1)) data = false := by
      by_contra hne
      have htrue : endsL (BEGINcl.take (k + 1)) data = true := by
        cases hv : endsL (BEGINcl.take (k + 1)) data
        · exact absurd hv hne
        · rfl
      have hlt : '<' ∈ BEGINcl.take (k + 1) := by
        have : BEGINcl = '<' :: BEGINcl.tail := by decide
        rw [this, List.take_succ_cons]
        exact List.mem_cons_self _ _
      exact h '<' (endsL_mem htrue '<' hlt) rfl
    rw [if_neg (by simp [hend]), ih]

theorem tryEmitJsonToolCallLine_plain {st : StreamState} {l : List Char}
    (h : ∀ c ∈ l, c ≠ '\x7b') :
    tryEmitJsonToolCallLine st l = (st, [], false) := by
  unfold tryEmitJsonToolCallLine
  have : startsL ['\x7b'] (jsTrim l) = false := by
    cases hv : jsTrim l with
    | nil => rfl
    | cons c rest =>
      simp only [startsL, Bool.and_eq_false_iff, beq_eq_false_iff_ne]
      refine Or.inl (fun hh => ?_)
      have : c ∈ l := jsTrim_subset c (by rw [hv]; exact List.mem_cons_self _ _)
      exact h c this hh.symm
  simp [this]

theorem ptc_plain (st : StreamState) (a : String)
    (hbuf : st.textToolParserBuffer = "") (hact : st.textToolActive = none)
    (ha : PlainAnswer a) (hne : a ≠ "") :
    processTextContent st a = (st, [.text a], true, true) := by
  have hlt : ∀ c ∈ a.data, c ≠ '<' := fun c hc => (ha c hc).1
  have hbr : ∀ c ∈ a.data, c ≠ '\x7b' := fun c hc => (ha c hc).2.1
  have hnl : ∀ c ∈ a.data, c ≠ '\n' ∧ c ≠ '\r' := fun c hc => (ha c hc).2.2
  have hdata : a.data ≠ [] := by
    intro hd
    exact hne (by cases a with | mk l => simp only at hd; simp [hd])
  have hlen : a.data.length ≠ 0 := fun hh => hdata (List.eq_nil_of_length_eq_zero hh)
  have h0 : ("" : String).data = [] := rfl
  unfold processTextContent
  rw [hbuf]
  simp only [h0, List.nil_append]
  rw [ptcLoop]
  simp only [hlen, if_false, hact, findSub?_BEGIN_none hlt, longestPartial_zero hlt,
    gt_iff_lt, Nat.lt_irrefl, if_false, splitLinesJS_single hnl, processLines,
    tryEmitJsonToolCallLine_plain hbr, stripControlTokens_no_lt hlt]
  simp only [Bool.false_eq_true, if_false, List.nil_append, List.append_nil]
  rw [if_pos (Nat.pos_of_ne_zero hlen)]
  simp only [asString_data]
  rw [show ([] : List Char).asString = "" from rfl, ← hbuf]

/-! ## Dispatcher lemmas for reasoning/answer ordering -/

theorem processDelta_reasoning (st : StreamState) (r : String) :
    processDelta true st (reasoningEv r) =
      .ok ((if r ≠ "" then
          { st with reasoningContentBuffer := st.reasoningContentBuffer ++ r,
                    hasEmittedThinkingContent := true }
        else st), []) := by
  unfold processDelta
  simp only [reasoningEv, List.head?_cons, Option.some_bind]
  split
  · split
    · rfl
    · simp_all
  · split
    · simp_all
    · rfl

theorem processDelta_content_empty (t : Bool) (st : StreamState) :
    processDelta t st (contentEv "") = .ok (st, []) := by
  unfold processDelta
  simp [contentEv]

theorem processDelta_content_plain (t : Bool) (st : StreamState) (a : String)
    (hbuf : st.textToolParserBuffer = "") (hact : st.textToolActive = none)
    (ha : PlainAnswer a) (hne : a ≠ "") :
    processDelta t st (contentEv a) =
      .ok (if t && st.reasoningContentBuffer ≠ "" then
          ({ st with reasoningContentBuffer := "", hasEmittedAssistantText := true },
            [.text (formatReasoningContent st.reasoningContentBuffer true), .text a])
        else ({ st with hasEmittedAssistantText := true }, [.text a])) := by
  unfold processDelta
  simp only [contentEv, List.head?_cons, Option.some_bind]
  rw [if_pos hne]
  split
  · rename_i hcond
    rw [ptc_plain { st with reasoningContentBuffer := "" } a hbuf hact ha hne]
    simp
  · rename_i hcond
    rw [ptc_plain st a hbuf hact ha hne]
    simp

theorem processItems_append (t : Bool) (st : StreamState) (xs ys : List SseItem) :
    processItems t st (xs ++ ys) =
      match processItems t st xs with
      | .error e => .error e
      | .ok (st1, evs) =>
        match processItems t st1 ys with
        | .error e => .error e
        | .ok (st2, evs') => .ok (st2, evs ++ evs') := by
  induction xs generalizing st with
  | nil =>
    simp only [List.nil_append, processItems]
    cases processItems t st ys with
    | error e => rfl
    | ok p => cases p; simp
  | cons x xt ih =>
    simp only [List.cons_append, processItems]
    cases hstep : (match x with
      | SseItem.event e => processDelta t st e
      | SseItem.done => processDone t st) with
    | error e => rfl
    | ok p =>
      obtain ⟨st1, evs⟩ := p
      simp only [List.append_eq]
      rw [ih st1]
      cases processItems t st1 xt with
      | error e => rfl
      | ok q =>
        obtain ⟨st2, evs'⟩ := q
        dsimp only
        cases processItems t st2 ys with
        | error e => rfl
        | ok r =>
          obtain ⟨st3, evs''⟩ := r
          dsimp only
          rw [List.append_assoc]

theorem string_append_empty (s : String) : s ++ "" = s := by
  cases s with
  | mk l => exact congrArg String.mk (List.append_nil l)

theorem string_empty_append (s : String) : "" ++ s = s := by
  cases s with
  | mk l => rfl

theorem string_append_assoc (a b c : String) : a ++ b ++ c = a ++ (b ++ c) := by
  cases a with
  | mk la =>
    cases b with
    | mk lb =>
      cases c with
      | mk lc => exact congrArg String.mk (List.append_assoc la lb lc)

theorem string_foldl_append (b : String) (l : List String) (x : String) :
    l.foldl (· ++ ·) (b ++ x) = b ++ l.foldl (· ++ ·) x := by
  induction l generalizing x with
  | nil => rfl
  | cons y t ih =>
    simp only [List.foldl]
    rw [string_append_assoc, ih]

theorem string_join_cons (r : String) (rest : List String) :
    String.join (r :: rest) = r ++ String.join rest := by
  unfold String.join
  simp only [List.foldl]
  rw [string_empty_append]
  conv_lhs => rw [← string_append_empty r]
  rw [string_foldl_append r rest ""]

theorem reasoning_phase (st : StreamState) (rs : List String) :
    ∃ b, processItems true st (rs.map reasoningEvent) =
      .ok ({ st with
               reasoningContentBuffer := st.reasoningContentBuffer ++ String.join rs,
               hasEmittedThinkingContent := b }, []) := by
  induction rs generalizing st with
  | nil =>
    refine ⟨st.hasEmittedThinkingContent, ?_⟩
    have h1 : st.reasoningContentBuffer ++ String.join [] = st.reasoningContentBuffer :=
      string_append_empty _
    rw [h1]
    rfl
  | cons r rest ih =>
    simp only [List.map_cons, processItems, reasoningEvent, processDelta_reasoning]
    by_cases hr : r = ""
    · subst hr
      simp only [ne_eq, not_true_eq_false, if_false]
      obtain ⟨b, hb⟩ := ih st
      refine ⟨b, ?_⟩
      rw [hb, string_join_cons, string_empty_append]
      rfl
    · rw [if_pos hr]
      obtain ⟨b, hb⟩ := ih { st with reasoningContentBuffer := st.reasoningContentBuffer ++ r, hasEmittedThinkingContent := true }
      refine ⟨b, ?_⟩
      rw [hb, string_join_cons]
      simp [string_append_assoc]

theorem answer_phase (as : List String) (has : ∀ a ∈ as, PlainAnswer a) :
    ∀ st : StreamState, st.textToolParserBuffer = "" → st.textToolActive = none →
    ∃ st', processItems true st (as.map contentEvent) =
        .ok (st', (if st.reasoningContentBuffer ≠ "" ∧ as.any (· ≠ "") then
            [OutputEvent.text (formatReasoningContent st.reasoningContentBuffer true)]
          else []) ++ (as.filter (· ≠ "")).map OutputEvent.text) ∧
      st'.textToolParserBuffer = "" ∧ st'.textToolActive = none ∧
      st'.toolCallBuffers = st.toolCallBuffers ∧
      st'.reasoningContentBuffer = (if as.any (· ≠ "") then "" else st.reasoningContentBuffer) := by
  induction as with
  | nil =>
    intro st h1 h2
    exact ⟨st, by simp [processItems], h1, h2, rfl, by simp⟩
  | cons a rest ih =>
    intro st hbuf hact
    have ha := has a (List.mem_cons_self _ _)
    have hasRest : ∀ x ∈ rest, PlainAnswer x := fun x hx => has x (List.mem_cons_of_mem _ hx)
    by_cases hA : a = ""
    · subst hA
      obtain ⟨st', hrun, h1, h2, h3, h4⟩ := ih hasRest st hbuf hact
      refine ⟨st', ?_, h1, h2, h3, ?_⟩
      · simp only [List.map_cons, processItems, contentEvent, processDelta_content_empty]
        rw [hrun]
        simp
      · simpa using h4
    · by_cases hB : st.reasoningContentBuffer = ""
      · obtain ⟨st', hrun, h1, h2, h3, h4⟩ :=
          ih hasRest { st with hasEmittedAssistantText := true } hbuf hact
        refine ⟨st', ?_, h1, h2, h3, ?_⟩
        · simp only [List.map_cons, processItems, contentEvent]
          rw [processDelta_content_plain true st a hbuf hact ha hA]
          rw [if_neg (by simp [hB])]
          dsimp only
          rw [hrun]
          simp [hA, hB]
        · rw [h4]
          simp [hA, hB]
      · obtain ⟨st', hrun, h1, h2, h3, h4⟩ :=
          ih hasRest { st with reasoningContentBuffer := "", hasEmittedAssistantText := true }
            hbuf hact
        refine ⟨st', ?_, h1, h2, h3, ?_⟩
        · simp only [List.map_cons, processItems, contentEvent]
          rw [processDelta_content_plain true st a hbuf hact ha hA]
          rw [if_pos (by simp [hB])]
          dsimp only
          rw [hrun]
          simp [hA, hB]
        · rw [h4]
          simp [hA, hB]

theorem done_clean (t : Bool) (st : StreamState)
    (hb : st.toolCallBuffers = []) (hact : st.textToolActive = none) :
    processDone t st =
      .ok ((if t && st.reasoningContentBuffer ≠ "" then
          { st with reasoningContentBuffer := "" } else st),
        if t && st.reasoningContentBuffer ≠ "" then
          [.text (formatReasoningContent st.reasoningContentBuffer true)] else []) := by
  have hfl : ∀ s2 : StreamState, s2.toolCallBuffers = st.toolCallBuffers →
      flushToolCallBuffers s2 false = .ok (s2, []) := by
    intro s2 h2
    unfold flushToolCallBuffers
    rw [h2, hb]
    simp
  have hfa : ∀ s2 : StreamState, s2.textToolActive = none →
      flushActiveTextToolCall s2 = (s2, []) := by
    intro s2 h2
    unfold flushActiveTextToolCall
    rw [h2]
  unfold processDone
  by_cases hc : t && st.reasoningContentBuffer ≠ ""
  · rw [if_pos hc, if_pos hc, if_pos hc]
    dsimp only
    rw [hfl { st with reasoningContentBuffer := "" } rfl]
    dsimp only
    rw [hfa { st with reasoningContentBuffer := "" } hact]
    simp
  · rw [if_neg hc, if_neg hc, if_neg hc]
    dsimp only
    rw [hfl st rfl]
    dsimp only
    rw [hfa st hact]
    simp

theorem c5_aux (st1 : StreamState) (as : List String)
    (has : ∀ a ∈ as, PlainAnswer a)
    (hbuf : st1.textToolParserBuffer = "") (hact : st1.textToolActive = none)
    (hbufs : st1.toolCallBuffers = []) (hrb : st1.reasoningContentBuffer ≠ "") :
    ∃ st, processItems true st1 (as.map contentEvent ++ [SseItem.done]) =
      .ok (st, OutputEvent.text (formatReasoningContent st1.reasoningContentBuffer true) ::
        (as.filter (· ≠ "")).map OutputEvent.text) := by
  rw [processItems_append]
  obtain ⟨st', hans, h1, h2, h3, h4⟩ := answer_phase as has st1 hbuf hact
  rw [hans]
  dsimp only
  have hdone : processItems true st' [SseItem.done] =
      match processDone true st' with
      | .error e => .error e
      | .ok (st2, evs) => .ok (st2, evs ++ []) := by
    simp [processItems]
  rw [hdone, done_clean true st' (by rw [h3, hbufs]) h2]
  by_cases hAny : as.any (· ≠ "") = true
  · rw [if_pos (show st1.reasoningContentBuffer ≠ "" ∧ as.any (· ≠ "") = true from ⟨hrb, hAny⟩)]
    have hb' : st'.reasoningContentBuffer = "" := by rw [h4, if_pos hAny]
    have hc : ¬((true && (st'.reasoningContentBuffer ≠ "" : Bool)) = true) := by simp [hb']
    rw [if_neg hc, if_neg hc]
    exact ⟨st', by simp⟩
  · have hall : ∀ a ∈ as, a = "" := by
      intro a hm
      by_contra hne
      exact hAny (List.any_eq_true.mpr ⟨a, hm, by simpa using hne⟩)
    have hfilter : List.filter (fun x => !decide (x = "")) as = [] :=
      List.filter_eq_nil_iff.mpr (fun a hm => by simp [hall a hm])
    have hb' : st'.reasoningContentBuffer = st1.reasoningContentBuffer := by
      rw [h4, if_neg hAny]
    rw [if_neg (show ¬(st1.reasoningContentBuffer ≠ "" ∧ as.any (· ≠ "") = true) from
      fun hcontra => hAny hcontra.2)]
    have hc : (true && (st'.reasoningContentBuffer ≠ "" : Bool)) = true := by simp [hb', hrb]
    rw [if_pos hc, if_pos hc, hb']
    refine ⟨{ st' with reasoningContentBuffer := "" }, ?_⟩
    simp [hfilter]

/-- C5: with reasoning display enabled, for every event sequence of
reasoning-channel deltas followed by (special-character-free) answer-channel
deltas followed by `[DONE]`, the emitted output events are exactly one
reasoning block formatted as complete followed by the answer texts — the
buffered reasoning is always flushed before any answer text, with no
interleaving. -/
theorem c5_reasoning_precedes_answer (rs as : List String)
    (hrs : String.join rs ≠ "")
    (has : ∀ a ∈ as, PlainAnswer a) :
    ∃ st, processItems true initialStreamState
        (rs.map reasoningEvent ++ as.map contentEvent ++ [SseItem.done]) =
      .ok (st, OutputEvent.text (formatReasoningContent (String.join rs) true) ::
        (as.filter (· ≠ "")).map OutputEvent.text) := by
  rw [List.append_assoc, processItems_append]
  obtain ⟨b, hr⟩ := reasoning_phase initialStreamState rs
  rw [hr]
  dsimp only
  obtain ⟨st, haux⟩ := c5_aux
    { initialStreamState with
        reasoningContentBuffer := initialStreamState.reasoningContentBuffer ++ String.join rs,
        hasEmittedThinkingContent := b }
    as has rfl rfl rfl (by exact hrs)
  rw [haux]
  exact ⟨st, by
    simp [show initialStreamState.reasoningContentBuffer ++ String.join rs = String.join rs from
      string_empty_append _]⟩

/-- Witness for `c5_reasoning_precedes_answer` at the concrete inputs
`rs = ["think"]`, `as = ["answer"]`. -/
theorem c5_reasoning_precedes_answer_witness :
    ∃ st, processItems true initialStreamState
        ((["think"] : List String).map reasoningEvent ++
         (["answer"] : List String).map contentEvent ++ [SseItem.done]) =
      .ok (st, OutputEvent.text (formatReasoningContent (String.join ["think"]) true) ::
        ((["answer"] : List String).filter (· ≠ "")).map OutputEvent.text) :=
  c5_reasoning_precedes_answer ["think"] ["answer"] (by decide)
    (by intro a ha; simp at ha; subst ha; decide)

/-- The tolerant flush iteration never raises: it emits exactly one
tool-call event per buffered entry whose accumulated arguments parse as
JSON, skips the rest, and leaves the active inline call untouched. -/
theorem flushLoop_false_spec (entries : List (Nat × ToolBuf)) : ∀ st : StreamState,
    ∃ st' evs, flushLoop st entries false = .ok (st', evs) ∧
      (∀ e ∈ evs, e.isToolCall = true) ∧
      evs.length = countValidBuffers entries ∧
      st'.textToolActive = st.textToolActive := by
  induction entries with
  | nil =>
      intro st
      refine ⟨st, [], rfl, ?_, ?_, rfl⟩
      · intro e he; cases he
      · simp [countValidBuffers]
  | cons q rest ih =>
      intro st
      obtain ⟨idx, buf⟩ := q
      rw [flushLoop.eq_def]
      dsimp only
      cases hp : tryParseJSONObject buf.args with
      | none =>
          simp only [hp, Bool.false_eq_true, if_false]
          obtain ⟨st', evs, h1, h2, h3, h4⟩ := ih st
          refine ⟨st', evs, h1, h2, ?_, h4⟩
          rw [h3]; simp [countValidBuffers, hp]
      | some v =>
          simp only [hp]
          cases hbid : buf.id with
          | some i =>
              dsimp only
              obtain ⟨st', evs, h1, h2, h3, h4⟩ := ih _
              rw [h1]
              refine ⟨st', OutputEvent.toolCall _ _ v :: evs, rfl, ?_, ?_, ?_⟩
              · intro e he
                rcases List.mem_cons.mp he with h | h
                · subst h; rfl
                · exact h2 e h
              · rw [List.length_cons, h3]
                simp [countValidBuffers, hp]
              · exact h4
          | none =>
              dsimp only
              obtain ⟨st', evs, h1, h2, h3, h4⟩ := ih _
              rw [h1]
              refine ⟨st', OutputEvent.toolCall _ _ v :: evs, rfl, ?_, ?_, ?_⟩
              · intro e he
                rcases List.mem_cons.mp he with h | h
                · subst h; rfl
                · exact h2 e h
              · rw [List.length_cons, h3]
                simp [countValidBuffers, hp]
              · exact h4

/-- The throwing flush raises as soon as it reaches an entry whose
accumulated arguments do not parse as JSON. -/
theorem flushLoop_true_error (entries : List (Nat × ToolBuf)) : ∀ st : StreamState,
    (∃ p ∈ entries, tryParseJSONObject p.2.args = none) →
    flushLoop st entries true = .error "Invalid JSON for tool call" := by
  induction entries with
  | nil =>
      intro st h
      obtain ⟨p, hp, _⟩ := h
      cases hp
  | cons q rest ih =>
      intro st h
      obtain ⟨idx, buf⟩ := q
      rw [flushLoop.eq_def]
      dsimp only
      cases hp : tryParseJSONObject buf.args with
      | none => simp [hp]
      | some v =>
          have hrest : ∃ p ∈ rest, tryParseJSONObject p.2.args = none := by
            rcases h with ⟨p, hpm, hpn⟩
            rcases List.mem_cons.mp hpm with he | hm
            · subst he; rw [hp] at hpn; cases hpn
            · exact ⟨p, hm, hpn⟩
          simp only [hp]
          cases hbid : buf.id with
          | some i =>
              dsimp only
              rw [ih _ hrest]
          | none =>
              dsimp only
              rw [ih _ hrest]

/-- The OCR fallback maps a message with no content parts to itself. -/
theorem processImages_mem (ocr : String → String → String) (msgs : List ChatMessage)
    (m : ChatMessage) (hm : m ∈ msgs) (hc : m.content.length = 0) :
    m ∈ processImagesForNonVisionModel ocr msgs := by
  have hnil : m.content = [] := List.length_eq_zero.mp hc
  unfold processImagesForNonVisionModel
  refine List.mem_map.mpr ⟨m, hm, ?_⟩
  simp [hnil]

/-- Vision routing preserves the number of messages. -/
theorem routeVision_length (ocr : String → String → String) (mid : String)
    (msgs : List ChatMessage) :
    (routeVision ocr mid msgs).2.length = msgs.length := by
  unfold routeVision
  by_cases h1 : hasImageInput msgs = true
  · rw [if_pos h1]
    by_cases h2 : modelSupportsVision mid = true
    · rw [if_pos h2]
    · rw [if_neg h2]
      rw [show getVisionFallbackModelId = some "glm-4.6v" from rfl]
      dsimp only
      by_cases h3 : ("glm-4.6v" : String) ≠ mid
      · rw [if_pos h3]
      · rw [if_neg h3]
        unfold processImagesForNonVisionModel
        exact List.length_map _ _
  · rw [if_neg h1]

/-- Vision routing keeps any message that has no content parts. -/
theorem routeVision_keeps_empty (ocr : String → String → String) (mid : String)
    (msgs : List ChatMessage) (m : ChatMessage) (hm : m ∈ msgs)
    (hc : m.content.length = 0) :
    m ∈ (routeVision ocr mid msgs).2 := by
  unfold routeVision
  by_cases h1 : hasImageInput msgs = true
  · rw [if_pos h1]
    by_cases h2 : modelSupportsVision mid = true
    · rw [if_pos h2]; exact hm
    · rw [if_neg h2]
      rw [show getVisionFallbackModelId = some "glm-4.6v" from rfl]
      dsimp only
      by_cases h3 : ("glm-4.6v" : String) ≠ mid
      · rw [if_pos h3]; exact hm
      · rw [if_neg h3]
        exact processImages_mem ocr msgs m hm hc
  · rw [if_neg h1]; exact hm

/-- C4: a request whose estimated message tokens plus estimated tool-schema
tokens exceed the effective model's context window minus its maximum output
fails with the token-limit error before the chat-completions call (the
`pipeline` value is everything that happens before the fetch). -/
theorem c4_budget_rejection (key : String) (t : Bool)
    (ocr : String → String → String) (model : ChatModelInfo)
    (messages : List ChatMessage) (options : ChatOptions) (info : ZaiModelInfo)
    (htools : ¬(options.tools.length > MAX_TOOLS_PER_REQUEST))
    (hval : validateRequest (routeVision ocr model.id messages).2 = .ok ())
    (hinfo : getModelInfo (routeVision ocr model.id messages).1 = some info)
    (hcw : 1 ≤ (info.contextWindow : Int) - (info.maxOutput : Int))
    (hover : (estimateMessagesTokens (routeVision ocr model.id messages).2 : Int) +
        (estimateToolTokens (convertTools options.tools) : Int) >
      (info.contextWindow : Int) - (info.maxOutput : Int)) :
    pipeline (some key) t ocr model messages options =
      .error "Message exceeds token limit." := by
  unfold pipeline
  dsimp only
  rw [if_neg htools, hval]
  dsimp only
  rw [hinfo]
  dsimp only
  rw [max_eq_right hcw]
  rw [if_pos hover]

/-- Witness for `c4_budget_rejection`: one user message with 75 image
parts routed to `glm-4.6v` (75 × 1500 = 112500 estimated tokens against a
budget of 128000 − 16000 = 112000). -/
theorem c4_budget_rejection_witness :
    pipeline (some "k") true (fun _ _ => "")
      ⟨"glm-4.6v", 200000, 200000⟩ c4Msgs ⟨[], none⟩ =
      .error "Message exceeds token limit." :=
  c4_budget_rejection "k" true (fun _ _ => "") ⟨"glm-4.6v", 200000, 200000⟩
    c4Msgs ⟨[], none⟩
    ⟨"glm-4.6v", "GLM-4.6", "GLM-4.6", 128000, 16000, true, true⟩
    (by decide) rfl (by decide) (by decide) (by decide)

/-- C6: a request with an empty message list, or with a message having zero
content parts, or declaring more than 128 tool definitions, aborts with a
validation error before the chat-completions call. -/
theorem c6_validation_errors (key : String) (t : Bool)
    (ocr : String → String → String) (model : ChatModelInfo)
    (messages : List ChatMessage) (options : ChatOptions)
    (h : messages.length = 0 ∨ (∃ m ∈ messages, m.content.length = 0) ∨
      options.tools.length > MAX_TOOLS_PER_REQUEST) :
    ∃ e, pipeline (some key) t ocr model messages options = .error e := by
  unfold pipeline
  dsimp only
  by_cases htools : options.tools.length > MAX_TOOLS_PER_REQUEST
  · rw [if_pos htools]
    exact ⟨_, rfl⟩
  · rw [if_neg htools]
    rcases h with h | h | h
    · have hlen : (routeVision ocr model.id messages).2.length = 0 := by
        rw [routeVision_length, h]
      unfold validateRequest
      rw [if_pos hlen]
      exact ⟨_, rfl⟩
    · obtain ⟨m, hm, hc⟩ := h
      have hmem := routeVision_keeps_empty ocr model.id messages m hm hc
      unfold validateRequest
      by_cases hlen : (routeVision ocr model.id messages).2.length = 0
      · rw [if_pos hlen]
        exact ⟨_, rfl⟩
      · rw [if_neg hlen]
        have hany : (routeVision ocr model.id messages).2.any
            (fun m => m.content.length = 0) = true :=
          List.any_eq_true.mpr ⟨m, hmem, by simpa using hc⟩
        rw [if_pos hany]
        exact ⟨_, rfl⟩
    · exact absurd h htools

/-- Witness for `c6_validation_errors` at the empty message list. -/
theorem c6_validation_errors_witness :
    ∃ e, pipeline (some "k") true (fun _ _ => "") ⟨"glm-4.7", 100, 100⟩ []
      ⟨[], none⟩ = .error e :=
  c6_validation_errors "k" true (fun _ _ => "") ⟨"glm-4.7", 100, 100⟩ []
    ⟨[], none⟩ (Or.inl rfl)

set_option maxHeartbeats 2000000 in
/-- C8: on the input event stream `content "Let me check "`, the two
structured deltas for call index 0 (id `c1`, name `lookup`, arguments
accumulated to `\x7b"q":"x"\x7d`), then `finish_reason "tool_calls"`, the
dispatcher emits exactly: the text `"Let me check "`, a single-space
rendering-hint text, and one tool call with id `c1`, name `lookup` and
argument object `\x7bq: "x"\x7d`. -/
theorem c8_round_trip_example :
    runOutputs true c8Items =
      some [.text "Let me check ", .text " ",
            .toolCall "c1" "lookup" (.obj [("q", Json.str "x")])] := by decide

/-- C7 (failing input): a message whose single content part is an empty text
part is normalized to wire content `""`, not the `"(empty message)"`
placeholder — the tool-result extraction branch of `getToolResultTexts`
matches every object part, so the empty text part overwrites the content
after the placeholder was chosen. -/
theorem c7_empty_text_part_yields_empty_content :
    (convertMessages [⟨ChatRole.user, [InputPart.text ""]⟩]).map
        (fun m => m.content) =
      [ZaiContent.str ""] := rfl

/-- C2 (failing input): the unsplit §8 control-token sequence yields exactly
the one expected tool-call event, but splitting it at byte offset 23 (inside
the `foo` header region, outside both control tokens) yields a spurious text
event instead — the parser buffer is clobbered at the end of each read
(`_textToolParserBuffer = data`), so carryover across reads is lost. -/
theorem c2_split_read_diverges :
    runTextChunks [c2seq] = c2expected ∧
    runTextSplit 23 =
      [.text ("|tool_call_argument_begin|>\x7b\"a\":1\x7d")] ∧
    runTextSplit 23 ≠ runTextChunks [c2seq] := by
  refine ⟨rfl, rfl, ?_⟩
  decide

/-- C3 (amended): the two encodings of the same logical call `foo(\x7b"a":1\x7d)`
are deduplicated only in the structured-then-inline order. Structured first:
the inline encoding is suppressed and exactly one tool-call event (the
structured one, id `sid`) is emitted. Inline first: `tryEmitBufferedToolCall`
records but never checks the dedup keys, so the structured encoding is
emitted again — two tool-call events for one logical call. -/
theorem c3_dedup_is_order_dependent :
    runOutputs true [structuredItem "foo" "\x7b\"a\":1\x7d",
        inlineItem "foo" "\x7b\"a\":1\x7d", .done] =
      some [.toolCall "sid" "foo" (.obj [("a", Json.num 1)])] ∧
    runOutputs true [inlineItem "foo" "\x7b\"a\":1\x7d",
        structuredItem "foo" "\x7b\"a\":1\x7d", .done] =
      some [.toolCall "tct_0" "foo" (.obj [("a", Json.num 1)]),
            .toolCall "sid" "foo" (.obj [("a", Json.num 1)])] := ⟨rfl, rfl⟩

/-- C3 (counterexample to the original claim): feeding both encodings of the
logical call `foo(\x7b"a":1\x7d)` in the inline-then-structured order yields two
tool-call output events, not exactly one. -/
theorem c3_counterexample_two_events :
    (runOutputs true [inlineItem "foo" "\x7b\"a\":1\x7d",
        structuredItem "foo" "\x7b\"a\":1\x7d", .done]).map List.length =
      some 2 ∧ some 2 ≠ some 1 := ⟨rfl, by decide⟩

/-- C1: for every streaming turn whose structured tool-call buffers include
one with invalid accumulated argument JSON (and no active inline call): the
`[DONE]` path succeeds, emitting tool-call events only for the buffers whose
arguments parse (so none for the invalid buffer), while an event carrying
`finish_reason "tool_calls"` (or `"stop"`) raises the invalid-JSON error. -/
theorem c1_flush_asymmetry (t : Bool) (st : StreamState) (fr : String)
    (hact : st.textToolActive = none)
    (hfr : fr = "tool_calls" ∨ fr = "stop")
    (hinv : ∃ p ∈ st.toolCallBuffers, tryParseJSONObject p.2.args = none) :
    (∃ st' evs, processDone t st = .ok (st', evs) ∧
      (evs.filter OutputEvent.isToolCall).length = countValidBuffers st.toolCallBuffers) ∧
    processDelta t st (finishEvent fr) = .error "Invalid JSON for tool call" := by
  have hne : ¬(st.toolCallBuffers.length = 0) := by
    obtain ⟨p, hpm, _⟩ := hinv
    intro h0
    rw [List.length_eq_zero] at h0
    rw [h0] at hpm
    cases hpm
  constructor
  · unfold processDone
    by_cases hrc : (t && (st.reasoningContentBuffer ≠ "" : Bool)) = true
    · rw [if_pos hrc]
      dsimp only
      obtain ⟨st2, evs, h1, h2, h3, h4⟩ :=
        flushLoop_false_spec st.toolCallBuffers { st with reasoningContentBuffer := "" }
      unfold flushToolCallBuffers
      rw [if_neg hne, h1]
      dsimp only
      unfold flushActiveTextToolCall
      rw [show st2.textToolActive = none from h4.trans hact]
      refine ⟨st2, _, rfl, ?_⟩
      rw [List.append_nil, List.filter_append]
      rw [List.filter_eq_self.mpr h2]
      simp [h3, OutputEvent.isToolCall]
    · rw [if_neg hrc]
      dsimp only
      obtain ⟨st2, evs, h1, h2, h3, h4⟩ := flushLoop_false_spec st.toolCallBuffers st
      unfold flushToolCallBuffers
      rw [if_neg hne, h1]
      dsimp only
      unfold flushActiveTextToolCall
      rw [show st2.textToolActive = none from h4.trans hact]
      refine ⟨st2, _, rfl, ?_⟩
      rw [List.append_nil, List.nil_append, List.filter_eq_self.mpr h2]
      exact h3
  · have hfrb : (fr = "tool_calls" || fr = "stop" : Bool) = true := by
      rcases hfr with h | h
      · simp [h]
      · simp [h]
    unfold processDelta finishEvent
    dsimp only [List.head?, Option.bind]
    rw [if_pos hfrb]
    unfold flushToolCallBuffers
    rw [if_neg hne, flushLoop_true_error st.toolCallBuffers st hinv]

/-- Witness for `c1_flush_asymmetry` at a concrete state holding one buffer
with the incomplete argument string `"\x7b"`. -/
theorem c1_flush_asymmetry_witness :
    (∃ st' evs, processDone true c1State = .ok (st', evs) ∧
      (evs.filter OutputEvent.isToolCall).length = countValidBuffers c1State.toolCallBuffers) ∧
    processDelta true c1State (finishEvent "tool_calls") =
      .error "Invalid JSON for tool call" :=
  c1_flush_asymmetry true c1State "tool_calls" rfl (Or.inl rfl)
    ⟨(0, { name := some "f", args := "\x7b" }), by decide, by decide⟩

/-- C10: a structured buffer that never received a function name is never
emitted opportunistically during streaming even though its accumulated
arguments parse as JSON; the forced flush emits it with the placeholder name
`"unknown_tool"` and a freshly generated id — both non-empty. -/
theorem c10_unnamed_buffer (st : StreamState) (idx : Nat) (buf : ToolBuf) (v : Json)
    (hbufs : st.toolCallBuffers = [(idx, buf)])
    (hname : buf.name = none) (hid : buf.id = none)
    (hargs : tryParseJSONObject buf.args = some v) :
    tryEmitBufferedToolCall st idx = (st, []) ∧
    (∃ st', flushToolCallBuffers st false =
      .ok (st', [.toolCall ("call" ++ "_" ++ toString st.nextIdNum) "unknown_tool" v])) ∧
    ("call" ++ "_" ++ toString st.nextIdNum : String) ≠ "" ∧
    ("unknown_tool" : String) ≠ "" := by
  refine ⟨?_, ?_, ?_, by decide⟩
  · unfold tryEmitBufferedToolCall
    rw [hbufs]
    have hget : mapGet? [(idx, buf)] idx = some buf := by
      simp [mapGet?, List.find?]
    rw [hget]
    dsimp only
    rw [hname]
  · unfold flushToolCallBuffers
    rw [hbufs]
    have hne : ¬(([(idx, buf)] : List (Nat × ToolBuf)).length = 0) := by simp
    rw [if_neg hne, flushLoop.eq_def]
    dsimp only
    rw [hargs, hid, hname]
    dsimp only [StreamState.genId, Option.getD]
    rw [flushLoop.eq_def]
    exact ⟨_, rfl⟩
  · intro h
    have h2 := congrArg String.data h
    simp [String.data_append] at h2

/-- Witness for `c10_unnamed_buffer` at a concrete state holding one
nameless buffer with argument string `"\x7b\x7d"`. -/
theorem c10_unnamed_buffer_witness :
    tryEmitBufferedToolCall c10State 0 = (c10State, []) ∧
    (∃ st', flushToolCallBuffers c10State false =
      .ok (st', [.toolCall ("call" ++ "_" ++ toString c10State.nextIdNum)
        "unknown_tool" (Json.obj [])])) ∧
    ("call" ++ "_" ++ toString c10State.nextIdNum : String) ≠ "" ∧
    ("unknown_tool" : String) ≠ "" :=
  c10_unnamed_buffer c10State 0 { args := "\x7b\x7d" } (Json.obj [])
    rfl rfl rfl (by decide)

/-- Tool-name characters are not JS whitespace. -/
theorem isToolNameChar_not_space {c : Char} (h : isToolNameChar c = true) :
    isJsSpace c = false := by
  cases hsp : isJsSpace c with
  | false => rfl
  | true =>
      exfalso
      have hc : ((((c = ' ' ∨ c = '\t') ∨ c = '\n') ∨ c = '\x0d') ∨ c = '\x0b') ∨
          c = '\x0c' := by
        simpa [isJsSpace] using hsp
      rcases hc with ((((h1 | h1) | h1) | h1) | h1) | h1 <;> subst h1 <;>
        exact absurd h (by decide)

/-- `matchHeader` on a pure tool-name run yields the name and no index. -/
theorem matchHeader_name (n : String) (hne : n.data ≠ [])
    (hchars : ∀ c ∈ n.data, isToolNameChar c = true) :
    matchHeader n.data = some (n, none) := by
  unfold matchHeader
  rw [takeWhile_eq_self_of_all hchars, dropWhile_eq_nil_of_all hchars]
  dsimp only
  rw [if_neg (fun h0 => hne (List.eq_nil_of_length_eq_zero h0))]
  cases n with
  | mk l => rfl

/-- `emitTextToolCallIfValid` on a fresh zero-argument inline call: emits
the call with the empty-object argument and a fresh `tct` id. -/
theorem emitTextToolCall_zero (st : StreamState) (n : String)
    (hkey : (n ++ ":" ++ "\x7b\x7d") ∉ st.emittedTextToolCallKeys) :
    emitTextToolCallIfValid st ⟨some n, none, "", false⟩ "\x7b\x7d" =
      ({ st with
          emittedTextToolCallKeys :=
            addSet st.emittedTextToolCallKeys (n ++ ":" ++ "\x7b\x7d"),
          nextIdNum := st.nextIdNum + 1 },
        [.toolCall ("tct" ++ "_" ++ toString st.nextIdNum) n (.obj [])], true) := by
  unfold emitTextToolCallIfValid
  rw [show tryParseJSONObject "\x7b\x7d" = some (.obj []) from rfl]
  dsimp only [Option.getD]
  rw [show jsonStringify (Json.obj []) = "\x7b\x7d" from rfl]
  rw [if_neg hkey]
  rfl

/-- C9: for every inline control-token tool call whose end token
immediately follows the header — `<|tool_call_begin|>NAME<|tool_call_end|>`
with `NAME` a non-empty tool-name run not yet deduplicated — the text
parser emits the call in the same chunk, with the empty JSON object as its
argument (and no visible text). -/
theorem c9_zero_arg_inline (st : StreamState) (n : String)
    (hbuf : st.textToolParserBuffer = "") (hact : st.textToolActive = none)
    (hne : n.data ≠ []) (hchars : ∀ c ∈ n.data, isToolNameChar c = true)
    (hkey : (n ++ ":" ++ "\x7b\x7d") ∉ st.emittedTextToolCallKeys) :
    ∃ st', processTextContent st (BEGIN_T ++ n ++ END_T) =
      (st', [.toolCall ("tct" ++ "_" ++ toString st.nextIdNum) n (.obj [])],
        false, true) := by
  have hlt : ∀ c ∈ n.data, c ≠ '<' :=
    fun c hc he => absurd (he ▸ hchars c hc) (by decide)
  have hsp : ∀ c ∈ n.data, isJsSpace c = false :=
    fun c hc => isToolNameChar_not_space (hchars c hc)
  have hdata0 : (BEGIN_T ++ n ++ END_T).data = BEGINcl ++ (n.data ++ ENDcl) := by
    cases n with
    | mk l => simp [BEGIN_T, END_T, BEGINcl, ENDcl]
  unfold processTextContent
  rw [hbuf]
  simp only [show ("" : String).data = [] from rfl, List.nil_append, hdata0]
  have hlen : (BEGINcl ++ (n.data ++ ENDcl)).length = n.data.length + 36 := by
    simp [BEGINcl, ENDcl, BEGIN_T, END_T]
  rw [ptcLoop]
  simp only [hlen]
  rw [if_neg (show ¬(n.data.length + 36 = 0) by omega)]
  rw [hact]
  rw [findSub?_of_startsL (startsL_self_append BEGINcl (n.data ++ ENDcl))]
  dsimp only
  simp only [List.take_zero, List.length_nil, gt_iff_lt, Nat.lt_irrefl, if_false]
  have hdrop1 : (BEGINcl ++ (n.data ++ ENDcl)).drop (0 + BEGINcl.length) =
      n.data ++ ENDcl := by
    rw [Nat.zero_add]
    exact List.drop_left _ _
  rw [hdrop1]
  have hA : findSub? ARGBEGINcl (n.data ++ ENDcl) = none := by
    rw [show ARGBEGINcl = '<' :: "|tool_call_argument_begin|>".data from rfl]
    rw [findSub?_append_free n.data ENDcl hlt]
    rw [show findSub? ('<' :: "|tool_call_argument_begin|>".data) ENDcl = none from rfl]
    rfl
  have hE : findSub? ENDcl (n.data ++ ENDcl) = some n.data.length := by
    rw [show ENDcl = '<' :: "|tool_call_end|>".data from rfl]
    rw [findSub?_append_free n.data _ hlt]
    rw [show findSub? ('<' :: "|tool_call_end|>".data)
      ('<' :: "|tool_call_end|>".data) = some 0 from rfl]
    simp
  rw [hA, hE]
  dsimp only
  have htake : (n.data ++ ENDcl).take n.data.length = n.data := List.take_left _ _
  rw [htake, jsTrim_eq_self hsp, matchHeader_name n hne hchars]
  simp only [Option.map, Option.bind, Bool.false_eq_true, if_false]
  have hdrop2 : (n.data ++ ENDcl).drop (n.data.length + ENDcl.length) = [] := by
    rw [show n.data.length + ENDcl.length = (n.data ++ ENDcl).length from
      (List.length_append _ _).symm]
    exact List.drop_length _
  rw [hdrop2, emitTextToolCall_zero st n hkey]
  dsimp only
  rw [show n.data.length + 36 = (n.data.length + 35) + 1 from rfl]
  rw [ptcLoop]
  simp only [List.length_nil, if_true]
  exact ⟨_, rfl⟩

/-- Witness for `c9_zero_arg_inline` at the fresh state and name `foo`. -/
theorem c9_zero_arg_inline_witness :
    ∃ st', processTextContent initialStreamState (BEGIN_T ++ "foo" ++ END_T) =
      (st', [.toolCall ("tct" ++ "_" ++ toString initialStreamState.nextIdNum)
        "foo" (.obj [])], false, true) :=
  c9_zero_arg_inline initialStreamState "foo" rfl rfl (by decide) (by decide)
    (by decide)

end Zai
